import Mathlib

/-!
Verification of the spec2dv register-spec core: a shallow embedding of the
canonical data model (src/spec2dv/models.py), the SQLite-backed spec store
(src/spec2dv/db.py), the validation engine (src/spec2dv/validate.py) and the
JSON/XML export projections (src/spec2dv/export_json.py, export_xml.py).

The SQLite database is embedded as flat tables of rows, each table a list in
rowid order (SQLite returns table scans in rowid order, and all ids come from
AUTOINCREMENT counters that never reuse values, so appending to the list and
filtering on delete reproduces scan order exactly).  SQL `ORDER BY` is
modelled by a stable insertion sort; an inner `JOIN` is a `flatMap` over the
matching rows of the joined table.

One behaviour of the real system is modelled deliberately: SQLite's
`PRAGMA foreign_keys = ON` is connection-scoped.  It is issued only inside
`SCHEMA_SQL` (executed on the connection opened by `init_db`), and
`connect_db` — the connection used by `ingest`, `validate` and `export` —
never re-issues it.  Foreign-key enforcement therefore defaults to OFF on the
connection that runs `upsert_spec_bundle`, so the
`DELETE FROM reg WHERE block_id=?` statement does NOT cascade to `field` and
`enum_value` rows; those rows are left behind with dangling `reg_id` /
`field_id` references.  The embedding of the delete below reflects the
executed (non-cascading) behaviour.
-/

/-! ### Pydantic model layer (src/spec2dv/models.py) -/

structure EnumValue where
  name : String
  value : Int
deriving Repr, DecidableEq

structure FieldDef where
  name : String
  lsb : Int
  msb : Int
  access : String
  reset : Int
  enum : Option (List EnumValue)
deriving Repr, DecidableEq

/-- Model of pydantic construction of a FieldDef: the `_msb_ge_lsb`
field validator raises a ValueError iff `msb < lsb`; construction succeeds
otherwise. -/
def mkFieldDef (name : String) (lsb msb : Int) (access : String) (reset : Int)
    (enum : Option (List EnumValue)) : Except String FieldDef :=
  if msb < lsb then Except.error "msb must be >= lsb"
  else Except.ok { name := name, lsb := lsb, msb := msb, access := access,
                   reset := reset, enum := enum }

structure RegisterDef where
  name : String
  offset : Int
  width : Int
  fields : List FieldDef
deriving Repr, DecidableEq

structure IPBlockDef where
  name : String
  base_addr : Int
  registers : List RegisterDef
deriving Repr, DecidableEq

/-- ConstraintDef's `match` dict is stored as opaque structured data
(serialized with json.dumps on ingest); it is modelled as an opaque string
payload since the core never interprets it. -/
structure ConstraintDefM where
  name : String
  applies_to : String
  matchPayload : String
  rule : String
  severity : String
deriving Repr, DecidableEq

structure SpecDoc where
  spec_version : String
  ip_blocks : List IPBlockDef
  constraints : List ConstraintDefM
deriving Repr, DecidableEq

structure SpecBundle where
  spec_version : String
  variant_name : Option String
  doc : SpecDoc
deriving Repr, DecidableEq

/-! ### Store rows (tables of SCHEMA_SQL, src/spec2dv/db.py) -/

structure BlockRow where
  id : Nat
  name : String
  base_addr : Int
  variant : Option String
deriving Repr, DecidableEq

structure RegRow where
  id : Nat
  block_id : Nat
  name : String
  offset : Int
  width : Int
deriving Repr, DecidableEq

structure FieldRow where
  id : Nat
  reg_id : Nat
  name : String
  lsb : Int
  msb : Int
  access : String
  reset : Int
deriving Repr, DecidableEq

structure EnumRow where
  id : Nat
  field_id : Nat
  name : String
  value : Int
deriving Repr, DecidableEq

structure ConstraintRow where
  id : Nat
  name : String
  applies_to : String
  match_json : String
  rule : String
  severity : String
deriving Repr, DecidableEq

/-- The SQLite database state: each table as its list of live rows in rowid
order, plus the AUTOINCREMENT counter of each table (AUTOINCREMENT never
reuses a rowid, even after deletes). -/
structure DB where
  blocks : List BlockRow
  regs : List RegRow
  fields : List FieldRow
  enums : List EnumRow
  constraints : List ConstraintRow
  nextBlockId : Nat
  nextRegId : Nat
  nextFieldId : Nat
  nextEnumId : Nat
  nextConstraintId : Nat
deriving Repr, DecidableEq

def DB.empty : DB :=
  { blocks := [], regs := [], fields := [], enums := [], constraints := [],
    nextBlockId := 1, nextRegId := 1, nextFieldId := 1, nextEnumId := 1,
    nextConstraintId := 1 }

/-- Model of SQLite's `ifnull(variant, '')` used by the unique index
`ux_block_name_variant` and by `_get_or_create_block`'s lookup. -/
def vkey (v : Option String) : String := v.getD ""

/-! ### Store writes (src/spec2dv/db.py) -/

/-- UPDATE ip_block SET base_addr=? WHERE id=?. -/
def updBase (base : Int) (rid : Nat) (b : BlockRow) : BlockRow :=
  if b.id == rid then { b with base_addr := base } else b

/-- Embeds `_get_or_create_block`: look up the first `ip_block` row with the
same `(name, ifnull(variant,''))` key; if found, update its `base_addr` and
return its id, otherwise insert a fresh row. -/
def getOrCreateBlock (db : DB) (name : String) (base : Int) (variant : Option String) :
    Nat × DB :=
  match db.blocks.find? (fun b => b.name == name && vkey b.variant == vkey variant) with
  | some row =>
      (row.id, { db with blocks := db.blocks.map (updBase base row.id) })
  | none =>
      (db.nextBlockId,
       { db with
         blocks := db.blocks ++ [{ id := db.nextBlockId, name := name,
                                   base_addr := base, variant := variant }],
         nextBlockId := db.nextBlockId + 1 })

/-- INSERT INTO reg: fails (IntegrityError, aborting the whole ingest
transaction) when the unique indexes `ux_reg_block_name` or
`ux_reg_block_offset` are violated. -/
def insertReg (db : DB) (bid : Nat) (r : RegisterDef) : Option (Nat × DB) :=
  if db.regs.any (fun q => q.block_id == bid && (q.name == r.name || q.offset == r.offset))
  then none
  else some (db.nextRegId,
    { db with
      regs := db.regs ++ [{ id := db.nextRegId, block_id := bid, name := r.name,
                            offset := r.offset, width := r.width }],
      nextRegId := db.nextRegId + 1 })

/-- INSERT INTO field: fails when `ux_field_reg_name` is violated. -/
def insertFieldRow (db : DB) (rid : Nat) (f : FieldDef) : Option (Nat × DB) :=
  if db.fields.any (fun q => q.reg_id == rid && q.name == f.name) then none
  else some (db.nextFieldId,
    { db with
      fields := db.fields ++ [{ id := db.nextFieldId, reg_id := rid, name := f.name,
                                lsb := f.lsb, msb := f.msb, access := f.access,
                                reset := f.reset }],
      nextFieldId := db.nextFieldId + 1 })

/-- INSERT INTO enum_value: fails when `ux_enum_field_value` is violated. -/
def insertEnumVal (db : DB) (fid : Nat) (e : EnumValue) : Option DB :=
  if db.enums.any (fun q => q.field_id == fid && q.value == e.value) then none
  else some
    { db with
      enums := db.enums ++ [{ id := db.nextEnumId, field_id := fid, name := e.name,
                              value := e.value }],
      nextEnumId := db.nextEnumId + 1 }

def insertEnumVals (db : DB) (fid : Nat) : List EnumValue → Option DB
  | [] => some db
  | e :: es =>
    match insertEnumVal db fid e with
    | none => none
    | some db1 => insertEnumVals db1 fid es

/-- Inserts one field row and, when `f.enum` is truthy (a non-empty list),
its enum_value rows, as in the inner loop of `upsert_spec_bundle`. -/
def insertFieldTree (db : DB) (rid : Nat) (f : FieldDef) : Option DB :=
  match insertFieldRow db rid f with
  | none => none
  | some (fid, db1) => insertEnumVals db1 fid (f.enum.getD [])

def insertFieldTrees (db : DB) (rid : Nat) : List FieldDef → Option DB
  | [] => some db
  | f :: fs =>
    match insertFieldTree db rid f with
    | none => none
    | some db1 => insertFieldTrees db1 rid fs

def insertRegTree (db : DB) (bid : Nat) (r : RegisterDef) : Option DB :=
  match insertReg db bid r with
  | none => none
  | some (rid, db1) => insertFieldTrees db1 rid r.fields

def insertRegTrees (db : DB) (bid : Nat) : List RegisterDef → Option DB
  | [] => some db
  | r :: rs =>
    match insertRegTree db bid r with
    | none => none
    | some db1 => insertRegTrees db1 bid rs

/-- Embeds the per-block body of `upsert_spec_bundle`: upsert the block row,
run `DELETE FROM reg WHERE block_id=?`, then insert the new register trees.
The delete removes only `reg` rows: foreign-key enforcement is OFF on the
connection opened by `connect_db` (the `PRAGMA foreign_keys = ON` of
SCHEMA_SQL is connection-scoped and was issued on `init_db`'s connection
only), so the declared `ON DELETE CASCADE` does not run and `field` /
`enum_value` rows of the deleted registers stay behind. -/
def upsertBlockTree (db : DB) (variant : Option String) (blk : IPBlockDef) : Option DB :=
  let p := getOrCreateBlock db blk.name blk.base_addr variant
  let db2 := { p.2 with regs := p.2.regs.filter (fun r => !(r.block_id == p.1)) }
  insertRegTrees db2 p.1 blk.registers

def upsertBlockTrees (db : DB) (variant : Option String) : List IPBlockDef → Option DB
  | [] => some db
  | blk :: blks =>
    match upsertBlockTree db variant blk with
    | none => none
    | some db1 => upsertBlockTrees db1 variant blks

def constraintRowsFrom (start : Nat) : List ConstraintDefM → List ConstraintRow
  | [] => []
  | c :: cs =>
    { id := start, name := c.name, applies_to := c.applies_to,
      match_json := c.matchPayload, rule := c.rule, severity := c.severity }
      :: constraintRowsFrom (start + 1) cs

/-- Embeds `upsert_spec_bundle`: per-block destructive replace of registers,
then wholesale replacement of the constraint_def table.  A unique-index
violation raises sqlite3.IntegrityError; `connect_db` then skips the commit
and closes the connection, rolling the whole ingest back, which the `none`
result models (the caller's store is unchanged). -/
def upsert_spec_bundle (db : DB) (bundle : SpecBundle) : Option DB :=
  match upsertBlockTrees db bundle.variant_name bundle.doc.ip_blocks with
  | none => none
  | some db1 => some
      { db1 with
        constraints := constraintRowsFrom db1.nextConstraintId bundle.doc.constraints,
        nextConstraintId := db1.nextConstraintId + bundle.doc.constraints.length }

/-! ### Read queries

SQLite's ORDER BY on TEXT columns uses the BINARY collation, i.e. byte order
of the UTF-8 encoding, which coincides with codepoint order; this is the
structural order of the core String instances below (Mathlib's iterator-based
String order instances are avoided because they do not reduce in the
kernel). -/

def strLt (a b : String) : Prop := @LT.lt String String.instLT a b

def strLe (a b : String) : Prop := ¬ strLt b a

instance : DecidableRel strLt := fun a b => String.decLt a b

instance : DecidableRel strLe := fun _ _ => instDecidableNot

theorem strLt_trans {a b c : String} (h1 : strLt a b) (h2 : strLt b c) : strLt a c :=
  String.lt_trans h1 h2

theorem strLt_antisymm {a b : String} (h1 : ¬ strLt a b) (h2 : ¬ strLt b a) : a = b :=
  String.lt_antisymm h1 h2

theorem strLe_trans {a b c : String} (h1 : strLe a b) (h2 : strLe b c) : strLe a c := by
  intro hca
  by_cases hbc : strLt b c
  · exact h1 (strLt_trans hbc hca)
  · by_cases hcb : strLt c b
    · exact h2 hcb
    · exact h1 ((strLt_antisymm hbc hcb) ▸ hca)

theorem strLe_total (a b : String) : strLe a b ∨ strLe b a := by
  by_cases h : strLt a b
  · left
    intro h2
    exact String.lt_irrefl a (strLt_trans h h2)
  · right
    exact h

theorem strLt_trichotomy (a b : String) : strLt a b ∨ a = b ∨ strLt b a := by
  by_cases h1 : strLt a b
  · exact Or.inl h1
  · by_cases h2 : strLt b a
    · exact Or.inr (Or.inr h2)
    · exact Or.inr (Or.inl (strLt_antisymm h1 h2))

def blockNameLe (a b : BlockRow) : Prop := strLe a.name b.name

instance : DecidableRel blockNameLe := fun a b =>
  inferInstanceAs (Decidable (strLe a.name b.name))

instance : IsTotal BlockRow blockNameLe := ⟨fun a b => strLe_total a.name b.name⟩

instance : IsTrans BlockRow blockNameLe :=
  ⟨fun _ _ _ h1 h2 => strLe_trans h1 h2⟩

def regOffsetLe (a b : RegRow) : Prop := a.offset ≤ b.offset

instance : DecidableRel regOffsetLe := fun a b =>
  inferInstanceAs (Decidable (a.offset ≤ b.offset))

instance : IsTotal RegRow regOffsetLe := ⟨fun a b => le_total a.offset b.offset⟩

instance : IsTrans RegRow regOffsetLe := ⟨fun _ _ _ h1 h2 => le_trans h1 h2⟩

def fieldLsbLe (a b : FieldRow) : Prop := a.lsb ≤ b.lsb

instance : DecidableRel fieldLsbLe := fun a b =>
  inferInstanceAs (Decidable (a.lsb ≤ b.lsb))

instance : IsTotal FieldRow fieldLsbLe := ⟨fun a b => le_total a.lsb b.lsb⟩

instance : IsTrans FieldRow fieldLsbLe := ⟨fun _ _ _ h1 h2 => le_trans h1 h2⟩

def enumValueLe (a b : EnumRow) : Prop := a.value ≤ b.value

instance : DecidableRel enumValueLe := fun a b =>
  inferInstanceAs (Decidable (a.value ≤ b.value))

instance : IsTotal EnumRow enumValueLe := ⟨fun a b => le_total a.value b.value⟩

instance : IsTrans EnumRow enumValueLe := ⟨fun _ _ _ h1 h2 => le_trans h1 h2⟩

/-- SELECT id, name, base_addr, variant FROM ip_block ORDER BY name. -/
def sortedBlocks (db : DB) : List BlockRow := List.insertionSort blockNameLe db.blocks

/-- SELECT ... FROM reg WHERE block_id=? ORDER BY offset. -/
def regsOfBlockQ (db : DB) (bid : Nat) : List RegRow :=
  List.insertionSort regOffsetLe (db.regs.filter (fun r => r.block_id == bid))

/-- SELECT ... FROM field WHERE reg_id=? ORDER BY lsb. -/
def fieldsOfRegFullQ (db : DB) (rid : Nat) : List FieldRow :=
  List.insertionSort fieldLsbLe (db.fields.filter (fun f => f.reg_id == rid))

/-- SELECT name, value FROM enum_value WHERE field_id=? ORDER BY value. -/
def enumsOfFieldQ (db : DB) (fid : Nat) : List EnumRow :=
  List.insertionSort enumValueLe (db.enums.filter (fun e => e.field_id == fid))

/-! ### Validation engine (src/spec2dv/validate.py) -/

/-- ValidationIssue, with the fields in the dataclass's declared order:
severity, code, message, context.  Note that every call site in validate.py
passes the `blk.reg[.field]` path as the THIRD positional argument and the
descriptive text as the fourth, so the path lands in `message` and the text
in `context`. -/
structure ValidationIssue where
  severity : String
  code : String
  message : String
  context : String
deriving Repr, DecidableEq

structure ValidationResult where
  issues : List ValidationIssue
deriving Repr, DecidableEq

/-- Python str.upper() (character-wise upper-casing; String.mk keeps the
recursion structural so that concrete runs reduce in the kernel). -/
def pyUpper (s : String) : String := String.mk (s.data.map Char.toUpper)

/-- Embeds the `error_count` property: issues whose upper-cased severity is
"ERROR". -/
def ValidationResult.error_count (res : ValidationResult) : Nat :=
  (res.issues.filter (fun i => pyUpper i.severity == "ERROR")).length

/-- Row of the first validation query, joining field, reg and ip_block. -/
structure JRow where
  blockName : String
  regName : String
  regWidth : Int
  fieldName : String
  lsb : Int
  msb : Int
  reset : Int
deriving Repr, DecidableEq

/-- The inner join of `field`, `reg` and `ip_block` on the foreign keys,
before ordering. -/
def joinRows (db : DB) : List JRow :=
  db.fields.flatMap (fun f =>
    (db.regs.filter (fun r => r.id == f.reg_id)).flatMap (fun r =>
      (db.blocks.filter (fun b => b.id == r.block_id)).map (fun b =>
        { blockName := b.name, regName := r.name, regWidth := r.width,
          fieldName := f.name, lsb := f.lsb, msb := f.msb, reset := f.reset })))

/-- ORDER BY b.name, r.name, f.lsb. -/
def jrowLe (a b : JRow) : Prop :=
  strLt a.blockName b.blockName ∨
    (a.blockName = b.blockName ∧
      (strLt a.regName b.regName ∨ (a.regName = b.regName ∧ a.lsb ≤ b.lsb)))

instance : DecidableRel jrowLe := fun a b =>
  inferInstanceAs (Decidable (strLt a.blockName b.blockName ∨
    (a.blockName = b.blockName ∧
      (strLt a.regName b.regName ∨ (a.regName = b.regName ∧ a.lsb ≤ b.lsb)))))

instance : IsTotal JRow jrowLe := by
  constructor
  intro a b
  rcases strLt_trichotomy a.blockName b.blockName with h | h | h
  · exact Or.inl (Or.inl h)
  · rcases strLt_trichotomy a.regName b.regName with h2 | h2 | h2
    · exact Or.inl (Or.inr ⟨h, Or.inl h2⟩)
    · rcases le_total a.lsb b.lsb with h3 | h3
      · exact Or.inl (Or.inr ⟨h, Or.inr ⟨h2, h3⟩⟩)
      · exact Or.inr (Or.inr ⟨h.symm, Or.inr ⟨h2.symm, h3⟩⟩)
    · exact Or.inr (Or.inr ⟨h.symm, Or.inl h2⟩)
  · exact Or.inr (Or.inl h)

instance : IsTrans JRow jrowLe := by
  constructor
  intro a b c hab hbc
  rcases hab with h1 | ⟨e1, h1⟩
  · rcases hbc with h2 | ⟨e2, _⟩
    · exact Or.inl (strLt_trans h1 h2)
    · exact Or.inl (e2 ▸ h1)
  · rcases hbc with h2 | ⟨e2, h2⟩
    · exact Or.inl (e1 ▸ h2)
    · refine Or.inr ⟨e1.trans e2, ?_⟩
      rcases h1 with h1 | ⟨f1, h1⟩
      · rcases h2 with h2 | ⟨f2, _⟩
        · exact Or.inl (strLt_trans h1 h2)
        · exact Or.inl (f2 ▸ h1)
      · rcases h2 with h2 | ⟨f2, h2⟩
        · exact Or.inl (f1 ▸ h2)
        · exact Or.inr ⟨f1.trans f2, le_trans h1 h2⟩

/-- The first validation query with its ORDER BY applied (stable sort on the
join result). -/
def joinRowsSorted (db : DB) : List JRow := List.insertionSort jrowLe (joinRows db)

/-- Embeds `_field_width`. -/
def fieldWidth (lsb msb : Int) : Int := (msb - lsb) + 1

/-- Value of `(1 << fw) - 1` for a non-negative shift count `fw`
(Python raises ValueError on a negative shift; the validate embedding guards
on that case returning `none`). -/
def maxValOf (lsb msb : Int) : Int := 2 ^ (fieldWidth lsb msb).toNat - 1

def rangeCondB (r : JRow) : Bool := decide (r.lsb < 0) || decide (r.regWidth ≤ r.msb)

def resetCondB (r : JRow) : Bool :=
  decide (r.reset < 0) || decide (maxValOf r.lsb r.msb < r.reset)

def mkRangeIssue (r : JRow) : ValidationIssue :=
  { severity := "ERROR", code := "FIELD_RANGE",
    message := r.blockName ++ "." ++ r.regName ++ "." ++ r.fieldName,
    context := "Field bits [" ++ toString r.msb ++ ":" ++ toString r.lsb ++
      "] outside register width " ++ toString r.regWidth }

def mkResetIssue (r : JRow) : ValidationIssue :=
  { severity := "ERROR", code := "RESET_WIDTH",
    message := r.blockName ++ "." ++ r.regName ++ "." ++ r.fieldName,
    context := "Reset " ++ toString r.reset ++ " does not fit width " ++
      toString (fieldWidth r.lsb r.msb) ++ " (max " ++
      toString (maxValOf r.lsb r.msb) ++ ")" }

/-- The zero, one or two issues the first loop of `validate_db` appends for
one joined row. -/
def emitRow (r : JRow) : List ValidationIssue :=
  (if rangeCondB r then [mkRangeIssue r] else []) ++
    (if resetCondB r then [mkResetIssue r] else [])

def pass1Issues (db : DB) : List ValidationIssue :=
  (joinRowsSorted db).flatMap emitRow

/-- Row of the second validation query (reg joined with ip_block, no ORDER
BY: rows arrive in reg rowid order). -/
structure RegScanRow where
  id : Nat
  blockName : String
  regName : String
  width : Int
deriving Repr, DecidableEq

def regScan (db : DB) : List RegScanRow :=
  db.regs.flatMap (fun r =>
    (db.blocks.filter (fun b => b.id == r.block_id)).map (fun b =>
      { id := r.id, blockName := b.name, regName := r.name, width := r.width }))

/-- Projection of a field row as fetched by the overlap query
(SELECT name, lsb, msb ... ORDER BY lsb). -/
structure FQ where
  name : String
  lsb : Int
  msb : Int
deriving Repr, DecidableEq

def fqLsbLe (a b : FQ) : Prop := a.lsb ≤ b.lsb

instance : DecidableRel fqLsbLe := fun a b =>
  inferInstanceAs (Decidable (a.lsb ≤ b.lsb))

instance : IsTotal FQ fqLsbLe := ⟨fun a b => le_total a.lsb b.lsb⟩

instance : IsTrans FQ fqLsbLe := ⟨fun _ _ _ h1 h2 => le_trans h1 h2⟩

def fieldsOfRegQ (db : DB) (rid : Nat) : List FQ :=
  List.insertionSort fqLsbLe
    ((db.fields.filter (fun f => f.reg_id == rid)).map (fun f =>
      { name := f.name, lsb := f.lsb, msb := f.msb }))

/-- The test of the inner overlap loop: issue when
NOT (f.msb < other.lsb OR f.lsb > other.msb). -/
def codeTestB (f o : FQ) : Bool := !(decide (f.msb < o.lsb) || decide (o.msb < f.lsb))

/-- The sweep of the overlap check: walk the lsb-ordered fields, compare each
against every previously accepted range (the `occupied` list), emitting the
pair (new field, prior field) for each failed disjointness test, then append
the new field to `occupied`. -/
def sweepPairs (acc : List FQ) : List FQ → List (FQ × FQ)
  | [] => []
  | f :: rest =>
    (acc.filter (fun o => codeTestB f o)).map (fun o => (f, o)) ++
      sweepPairs (acc ++ [f]) rest

def mkOverlapIssue (bn rn : String) (p : FQ × FQ) : ValidationIssue :=
  { severity := "ERROR", code := "FIELD_OVERLAP",
    message := bn ++ "." ++ rn,
    context := "Field " ++ p.1.name ++ " [" ++ toString p.1.msb ++ ":" ++
      toString p.1.lsb ++ "] overlaps " ++ p.2.name ++ " [" ++
      toString p.2.msb ++ ":" ++ toString p.2.lsb ++ "]" }

def pass2Issues (db : DB) : List ValidationIssue :=
  (regScan db).flatMap (fun rr =>
    (sweepPairs [] (fieldsOfRegQ db rr.id)).map (mkOverlapIssue rr.blockName rr.regName))

/-- Embeds `validate_db`.  The first loop evaluates `(1 << fw) - 1`
unconditionally for every joined row; Python raises ValueError when
`fw = msb - lsb + 1` is negative, aborting validation with no result, which
the `none` branch models.  (Fields constructed through the model layer always
satisfy `msb >= lsb`, so the guard holds on every reachable store.) -/
def validate_db (db : DB) : Option ValidationResult :=
  if (joinRowsSorted db).all (fun r => decide (0 ≤ fieldWidth r.lsb r.msb))
  then some { issues := pass1Issues db ++ pass2Issues db }
  else none

/-! ### JSON projection (src/spec2dv/export_json.py) -/

structure JEnum where
  name : String
  value : Int
deriving Repr, DecidableEq

structure JField where
  name : String
  lsb : Int
  msb : Int
  access : String
  reset : Int
  enum : Option (List JEnum)
deriving Repr, DecidableEq

structure JReg where
  name : String
  offset : Int
  width : Int
  fields : List JField
deriving Repr, DecidableEq

structure JBlock where
  name : String
  base_addr : Int
  variant : Option String
  registers : List JReg
deriving Repr, DecidableEq

/-- One field object of the JSON document: `enum` is None (null) when the
field has no enum_value rows, else the list of {name, value} objects in
ascending value order. -/
def jfieldOf (db : DB) (f : FieldRow) : JField :=
  let es := enumsOfFieldQ db f.id
  { name := f.name, lsb := f.lsb, msb := f.msb, access := f.access, reset := f.reset,
    enum := if es.isEmpty then none
            else some (es.map (fun e => { name := e.name, value := e.value })) }

def jregOf (db : DB) (r : RegRow) : JReg :=
  { name := r.name, offset := r.offset, width := r.width,
    fields := (fieldsOfRegFullQ db r.id).map (jfieldOf db) }

def jblockOf (db : DB) (b : BlockRow) : JBlock :=
  { name := b.name, base_addr := b.base_addr, variant := b.variant,
    registers := (regsOfBlockQ db b.id).map (jregOf db) }

/-- Embeds `export_registers_json`: the `ip_blocks` list of the emitted JSON
document (all scalars are carried as the integers / strings that json.dumps
then renders, integers in decimal). -/
def export_registers_json (db : DB) : List JBlock :=
  (sortedBlocks db).map (jblockOf db)

/-! ### XML projection (src/spec2dv/export_xml.py) -/

inductive Xml where
  | el (tag : String) (attrs : List (String × String)) (children : List Xml)
deriving Repr

def Xml.tag : Xml → String
  | .el t _ _ => t

def Xml.attrs : Xml → List (String × String)
  | .el _ a _ => a

def Xml.children : Xml → List Xml
  | .el _ _ c => c

/-- Attribute lookup (ElementTree attributes are a dict; the embedding keeps
them as an association list in insertion order). -/
def Xml.attr (x : Xml) (k : String) : Option String := x.attrs.lookup k

def hexDigitChar (n : Nat) : Char :=
  Char.ofNat (if n < 10 then 48 + n else 87 + n)

/-- Hex digits of n, most significant first (empty for 0); the fuel argument
makes the recursion structural. -/
def hexCharsAux : Nat → Nat → List Char
  | 0, _ => []
  | fuel + 1, n =>
    if n = 0 then [] else hexCharsAux fuel (n / 16) ++ [hexDigitChar (n % 16)]

def hexStrNat (n : Nat) : String :=
  if n = 0 then "0" else String.mk (hexCharsAux n n)

/-- Embeds Python's hex() builtin: "0x"-prefixed lowercase hex digits, with a
leading minus sign for negative arguments. -/
def pyHex (n : Int) : String :=
  if n < 0 then "-0x" ++ hexStrNat (-n).toNat else "0x" ++ hexStrNat n.toNat

/-- Inverse reading of a hex digit, for stating that an attribute is a
hexadecimal rendering of its row's value. -/
def hexDigitVal (c : Char) : Option Nat :=
  if 48 ≤ c.toNat ∧ c.toNat ≤ 57 then some (c.toNat - 48)
  else if 97 ≤ c.toNat ∧ c.toNat ≤ 102 then some (c.toNat - 87)
  else none

def parseHexChars : List Char → Nat → Option Nat
  | [], acc => some acc
  | c :: cs, acc =>
    match hexDigitVal c with
    | none => none
    | some v => parseHexChars cs (acc * 16 + v)

def parseHex (s : String) : Option Nat := parseHexChars s.data 0

def xvalueOf (e : EnumRow) : Xml :=
  Xml.el "value" [("name", e.name), ("value", toString e.value)] []

/-- One field element: the `enum` child element exists exactly when the field
has enum_value rows. -/
def xfieldOf (db : DB) (f : FieldRow) : Xml :=
  let es := enumsOfFieldQ db f.id
  Xml.el "field"
    [("name", f.name), ("lsb", toString f.lsb), ("msb", toString f.msb),
     ("access", f.access), ("reset", toString f.reset)]
    (if es.isEmpty then [] else [Xml.el "enum" [] (es.map xvalueOf)])

def xregOf (db : DB) (r : RegRow) : Xml :=
  Xml.el "register"
    [("name", r.name), ("offset", pyHex r.offset), ("width", toString r.width)]
    ((fieldsOfRegFullQ db r.id).map (xfieldOf db))

/-- One ip_block element; `b["variant"] or ""` maps a NULL (and an empty)
variant to the empty string, so the attribute is always present. -/
def xblockOf (db : DB) (b : BlockRow) : Xml :=
  Xml.el "ip_block"
    [("name", b.name), ("base_addr", pyHex b.base_addr),
     ("variant", b.variant.getD "")]
    ((regsOfBlockQ db b.id).map (xregOf db))

/-- Embeds `export_registers_xml`: the element tree written to the output
file. -/
def export_registers_xml (db : DB) : Xml :=
  Xml.el "spec" [] ((sortedBlocks db).map (xblockOf db))

/-! ### Structure of the validation passes -/

theorem validate_db_issues (db : DB) (res : ValidationResult)
    (h : validate_db db = some res) :
    res.issues = pass1Issues db ++ pass2Issues db := by
  unfold validate_db at h
  split at h
  · cases h
    rfl
  · cases h

theorem validate_db_widths (db : DB) (res : ValidationResult)
    (h : validate_db db = some res) :
    ∀ r ∈ joinRowsSorted db, 0 ≤ fieldWidth r.lsb r.msb := by
  unfold validate_db at h
  split at h
  · rename_i hall
    intro r hr
    simpa using (List.all_eq_true.mp hall r hr)
  · cases h

theorem mem_emitRow (r : JRow) (i : ValidationIssue) (h : i ∈ emitRow r) :
    i = mkRangeIssue r ∨ i = mkResetIssue r := by
  unfold emitRow at h
  rcases List.mem_append.mp h with h' | h'
  · left
    by_cases hc : rangeCondB r
    · simpa [hc] using h'
    · simp [hc] at h'
  · right
    by_cases hc : resetCondB r
    · simpa [hc] using h'
    · simp [hc] at h'

theorem mem_pass1 (db : DB) (i : ValidationIssue) (h : i ∈ pass1Issues db) :
    i.severity = "ERROR" ∧ (i.code = "FIELD_RANGE" ∨ i.code = "RESET_WIDTH") := by
  unfold pass1Issues at h
  rcases List.mem_flatMap.mp h with ⟨r, _, hir⟩
  rcases mem_emitRow r i hir with h' | h' <;> subst h' <;> simp [mkRangeIssue, mkResetIssue]

theorem mem_pass2 (db : DB) (i : ValidationIssue) (h : i ∈ pass2Issues db) :
    i.severity = "ERROR" ∧ i.code = "FIELD_OVERLAP" := by
  unfold pass2Issues at h
  rcases List.mem_flatMap.mp h with ⟨rr, _, hi⟩
  rcases List.mem_map.mp hi with ⟨p, _, hp⟩
  subst hp
  simp [mkOverlapIssue]

theorem filter_emitRow_range (r : JRow) :
    (emitRow r).filter (fun i => i.code == "FIELD_RANGE")
      = if rangeCondB r then [mkRangeIssue r] else [] := by
  unfold emitRow
  by_cases hr : rangeCondB r <;> by_cases hs : resetCondB r <;>
    simp [hr, hs, List.filter, mkRangeIssue, mkResetIssue]

theorem filter_emitRow_reset (r : JRow) :
    (emitRow r).filter (fun i => i.code == "RESET_WIDTH")
      = if resetCondB r then [mkResetIssue r] else [] := by
  unfold emitRow
  by_cases hr : rangeCondB r <;> by_cases hs : resetCondB r <;>
    simp [hr, hs, List.filter, mkRangeIssue, mkResetIssue]

theorem filter_flatMap_range (rows : List JRow) :
    (rows.flatMap emitRow).filter (fun i => i.code == "FIELD_RANGE")
      = (rows.filter rangeCondB).map mkRangeIssue := by
  induction rows with
  | nil => rfl
  | cons r rows ih =>
    rw [List.flatMap_cons, List.filter_append, filter_emitRow_range, ih]
    by_cases hr : rangeCondB r <;> simp [hr, List.filter]

theorem filter_flatMap_reset (rows : List JRow) :
    (rows.flatMap emitRow).filter (fun i => i.code == "RESET_WIDTH")
      = (rows.filter resetCondB).map mkResetIssue := by
  induction rows with
  | nil => rfl
  | cons r rows ih =>
    rw [List.flatMap_cons, List.filter_append, filter_emitRow_reset, ih]
    by_cases hs : resetCondB r <;> simp [hs, List.filter]

theorem pass2_filter_range (db : DB) :
    (pass2Issues db).filter (fun i => i.code == "FIELD_RANGE") = [] := by
  rw [List.filter_eq_nil_iff]
  intro i hi
  have := (mem_pass2 db i hi).2
  simp [this]

theorem pass2_filter_reset (db : DB) :
    (pass2Issues db).filter (fun i => i.code == "RESET_WIDTH") = [] := by
  rw [List.filter_eq_nil_iff]
  intro i hi
  have := (mem_pass2 db i hi).2
  simp [this]

theorem pass1_filter_overlap (db : DB) :
    (pass1Issues db).filter (fun i => i.code == "FIELD_OVERLAP") = [] := by
  rw [List.filter_eq_nil_iff]
  intro i hi
  rcases (mem_pass1 db i hi).2 with h | h <;> simp [h]

theorem pass2_filter_overlap (db : DB) :
    (pass2Issues db).filter (fun i => i.code == "FIELD_OVERLAP") = pass2Issues db := by
  rw [List.filter_eq_self]
  intro i hi
  have := (mem_pass2 db i hi).2
  simp [this]

theorem issues_severity (db : DB) (res : ValidationResult)
    (h : validate_db db = some res) :
    ∀ i ∈ res.issues, i.severity = "ERROR" := by
  intro i hi
  rw [validate_db_issues db res h] at hi
  rcases List.mem_append.mp hi with h' | h'
  · exact (mem_pass1 db i h').1
  · exact (mem_pass2 db i h').1

/-- Concrete store used by several witnesses: one block "b" holding one
register "r" of width 8 with fields f = [7:4] reset 20 (reset too wide for
4 bits), g = [8:0] reset 0 (escapes the register width and overlaps f). -/
def vdb1 : DB :=
  { blocks := [{ id := 1, name := "b", base_addr := 0, variant := none }],
    regs := [{ id := 1, block_id := 1, name := "r", offset := 0, width := 8 }],
    fields := [{ id := 1, reg_id := 1, name := "f", lsb := 4, msb := 7,
                 access := "RW", reset := 20 },
               { id := 2, reg_id := 1, name := "g", lsb := 0, msb := 8,
                 access := "RW", reset := 0 }],
    enums := [], constraints := [],
    nextBlockId := 2, nextRegId := 2, nextFieldId := 3, nextEnumId := 1,
    nextConstraintId := 1 }

def vres1 : ValidationResult := (validate_db vdb1).getD { issues := [] }

/-- C5: the FIELD_RANGE issues of a validation run are exactly one issue per
joined field row whose lsb is negative or whose msb is at least the owning
register's width, and the firing condition is literally
`lsb < 0 or msb >= register.width`; every such issue has severity ERROR. -/
theorem c5_field_range (db : DB) (res : ValidationResult)
    (h : validate_db db = some res) :
    res.issues.filter (fun i => i.code == "FIELD_RANGE")
      = ((joinRowsSorted db).filter rangeCondB).map mkRangeIssue
    ∧ (∀ r : JRow, rangeCondB r = true ↔ (r.lsb < 0 ∨ r.regWidth ≤ r.msb))
    ∧ (∀ i ∈ res.issues, i.severity = "ERROR") := by
  refine ⟨?_, ?_, issues_severity db res h⟩
  · rw [validate_db_issues db res h, List.filter_append, pass2_filter_range]
    unfold pass1Issues
    rw [filter_flatMap_range, List.append_nil]
  · intro r
    simp [rangeCondB]

theorem c5_field_range_witness :
    validate_db vdb1 = some vres1
    ∧ (vres1.issues.filter (fun i => i.code == "FIELD_RANGE")
        = ((joinRowsSorted vdb1).filter rangeCondB).map mkRangeIssue
      ∧ (∀ r : JRow, rangeCondB r = true ↔ (r.lsb < 0 ∨ r.regWidth ≤ r.msb))
      ∧ (∀ i ∈ vres1.issues, i.severity = "ERROR")) :=
  ⟨rfl, c5_field_range vdb1 vres1 rfl⟩

/-- C4: the RESET_WIDTH issues of a validation run are exactly one issue per
joined field row whose reset is negative or exceeds the value representable
in the field's own width, where the bound is `(1 << (msb - lsb + 1)) - 1`
(the exponent is non-negative for every row of a run that returns a result);
every such issue has severity ERROR. -/
theorem c4_reset_width (db : DB) (res : ValidationResult)
    (h : validate_db db = some res) :
    res.issues.filter (fun i => i.code == "RESET_WIDTH")
      = ((joinRowsSorted db).filter resetCondB).map mkResetIssue
    ∧ (∀ r : JRow, resetCondB r = true ↔
        (r.reset < 0 ∨ 2 ^ ((r.msb - r.lsb) + 1).toNat - 1 < r.reset))
    ∧ (∀ r ∈ joinRowsSorted db, 0 ≤ (r.msb - r.lsb) + 1)
    ∧ (∀ i ∈ res.issues, i.severity = "ERROR") := by
  refine ⟨?_, ?_, ?_, issues_severity db res h⟩
  · rw [validate_db_issues db res h, List.filter_append, pass2_filter_reset]
    unfold pass1Issues
    rw [filter_flatMap_reset, List.append_nil]
  · intro r
    simp [resetCondB, maxValOf, fieldWidth]
  · intro r hr
    simpa [fieldWidth] using validate_db_widths db res h r hr

theorem c4_reset_width_witness :
    validate_db vdb1 = some vres1
    ∧ (vres1.issues.filter (fun i => i.code == "RESET_WIDTH")
        = ((joinRowsSorted vdb1).filter resetCondB).map mkResetIssue
      ∧ (∀ r : JRow, resetCondB r = true ↔
          (r.reset < 0 ∨ 2 ^ ((r.msb - r.lsb) + 1).toNat - 1 < r.reset))
      ∧ (∀ r ∈ joinRowsSorted vdb1, 0 ≤ (r.msb - r.lsb) + 1)
      ∧ (∀ i ∈ vres1.issues, i.severity = "ERROR"))
    ∧ (joinRowsSorted vdb1).filter resetCondB
        = [{ blockName := "b", regName := "r", regWidth := 8, fieldName := "f",
             lsb := 4, msb := 7, reset := 20 }] :=
  ⟨rfl, c4_reset_width vdb1 vres1 rfl, by decide⟩

/-- C10: every issue emitted by validate_db carries severity "ERROR", hence
error_count (which counts issues whose upper-cased severity is "ERROR")
equals the total number of issues. -/
theorem c10_all_errors (db : DB) (res : ValidationResult)
    (h : validate_db db = some res) :
    (∀ i ∈ res.issues, i.severity = "ERROR")
    ∧ res.error_count = res.issues.length := by
  refine ⟨issues_severity db res h, ?_⟩
  unfold ValidationResult.error_count
  rw [List.filter_eq_self.mpr]
  intro i hi
  rw [issues_severity db res h i hi]
  decide

theorem c10_all_errors_witness :
    validate_db vdb1 = some vres1
    ∧ ((∀ i ∈ vres1.issues, i.severity = "ERROR")
        ∧ vres1.error_count = vres1.issues.length)
    ∧ vres1.issues.length = 3 :=
  ⟨rfl, c10_all_errors vdb1 vres1 rfl, by decide⟩

/-! ### FIELD_OVERLAP as a pairwise relation on closed ranges -/

/-- All (later, earlier) pairs of a list, in the order the overlap sweep
visits them: for each element, one pair with every element before it. -/
def priorPairsAux (acc : List FQ) : List FQ → List (FQ × FQ)
  | [] => []
  | f :: rest => acc.map (fun o => (f, o)) ++ priorPairsAux (acc ++ [f]) rest

def priorPairs (xs : List FQ) : List (FQ × FQ) := priorPairsAux [] xs

/-- Intersection test for the closed ranges [lsb, msb] of two fields. -/
def closedIntersectB (f o : FQ) : Bool := decide (max f.lsb o.lsb ≤ min f.msb o.msb)

theorem closedIntersect_iff (f o : FQ) :
    closedIntersectB f o = true ↔
      ∃ k : Int, f.lsb ≤ k ∧ k ≤ f.msb ∧ o.lsb ≤ k ∧ k ≤ o.msb := by
  simp only [closedIntersectB, decide_eq_true_eq]
  constructor
  · intro h
    exact ⟨max f.lsb o.lsb, by omega, by omega, by omega, by omega⟩
  · rintro ⟨k, h1, h2, h3, h4⟩
    omega

/-- On fields with non-empty ranges, the sweep's half-open disjointness test
agrees with closed-interval intersection. -/
theorem codeTest_eq_closed (f o : FQ) (hf : f.lsb ≤ f.msb) (ho : o.lsb ≤ o.msb) :
    codeTestB f o = closedIntersectB f o := by
  rw [← Bool.coe_iff_coe]
  simp only [codeTestB, closedIntersectB, Bool.not_eq_true', Bool.or_eq_false_iff,
    decide_eq_false_iff_not, not_lt, decide_eq_true_eq]
  omega

theorem sweepPairs_eq_filter (xs : List FQ) :
    ∀ acc : List FQ, (∀ x ∈ acc, x.lsb ≤ x.msb) → (∀ x ∈ xs, x.lsb ≤ x.msb) →
      sweepPairs acc xs
        = (priorPairsAux acc xs).filter (fun p => closedIntersectB p.1 p.2) := by
  induction xs with
  | nil => intro acc _ _; rfl
  | cons f rest ih =>
    intro acc hacc hxs
    have hf : f.lsb ≤ f.msb := hxs f (List.mem_cons_self f rest)
    rw [sweepPairs, priorPairsAux, List.filter_append, List.filter_map]
    rw [ih (acc ++ [f]) ?_ ?_]
    · have : acc.filter (fun o => codeTestB f o)
          = acc.filter ((fun p : FQ × FQ => closedIntersectB p.1 p.2) ∘ (fun o => (f, o))) := by
        apply List.filter_congr
        intro o ho
        exact codeTest_eq_closed f o hf (hacc o ho)
      rw [this]
    · intro x hx
      rcases List.mem_append.mp hx with h | h
      · exact hacc x h
      · rw [List.mem_singleton.mp h]
        exact hf
    · intro x hx
      exact hxs x (List.mem_cons_of_mem f hx)

theorem priorPairsAux_length (xs : List FQ) :
    ∀ acc : List FQ,
      (priorPairsAux acc xs).length = acc.length * xs.length + Nat.choose xs.length 2 := by
  induction xs with
  | nil => intro acc; simp [priorPairsAux]
  | cons f rest ih =>
    intro acc
    rw [priorPairsAux, List.length_append, List.length_map, ih (acc ++ [f])]
    have hc : (rest.length + 1).choose 2 = rest.length + rest.length.choose 2 := by
      have h2 := Nat.choose_succ_succ rest.length 1
      simp only [Nat.choose_one_right] at h2
      convert h2 using 2
    simp only [List.length_append, List.length_cons, List.length_singleton,
      List.length_nil, hc]
    ring

/-- Number of unordered pairs enumerated by the sweep: n choose 2, i.e. one
per unordered pair of distinct positions. -/
theorem priorPairs_length (xs : List FQ) :
    (priorPairs xs).length = Nat.choose xs.length 2 := by
  have := priorPairsAux_length xs []
  simpa [priorPairs] using this

theorem mem_fieldsOfRegQ_bounds (db : DB) (rid : Nat)
    (hf : ∀ f ∈ db.fields, f.lsb ≤ f.msb) :
    ∀ x ∈ fieldsOfRegQ db rid, x.lsb ≤ x.msb := by
  intro x hx
  unfold fieldsOfRegQ at hx
  rw [List.mem_insertionSort] at hx
  rcases List.mem_map.mp hx with ⟨f, hfmem, hproj⟩
  rcases List.mem_filter.mp hfmem with ⟨hfdb, _⟩
  rw [← hproj]
  exact hf f hfdb

/-- C1: within each register, one FIELD_OVERLAP issue is emitted per
unordered pair of distinct fields whose closed [lsb, msb] ranges intersect
(the test equals non-empty intersection of the closed ranges on well-formed
fields), enumerated once per pair; the enumerated pair list has length
n choose 2. -/
theorem c1_field_overlap (db : DB) (res : ValidationResult)
    (h : validate_db db = some res) (hf : ∀ f ∈ db.fields, f.lsb ≤ f.msb) :
    res.issues.filter (fun i => i.code == "FIELD_OVERLAP")
      = (regScan db).flatMap (fun rr =>
          ((priorPairs (fieldsOfRegQ db rr.id)).filter
              (fun p => closedIntersectB p.1 p.2)).map
            (mkOverlapIssue rr.blockName rr.regName))
    ∧ (∀ f o : FQ, closedIntersectB f o = true ↔
        ∃ k : Int, f.lsb ≤ k ∧ k ≤ f.msb ∧ o.lsb ≤ k ∧ k ≤ o.msb)
    ∧ (∀ rr ∈ regScan db,
        (priorPairs (fieldsOfRegQ db rr.id)).length
          = Nat.choose (fieldsOfRegQ db rr.id).length 2) := by
  refine ⟨?_, closedIntersect_iff, fun rr _ => priorPairs_length _⟩
  rw [validate_db_issues db res h, List.filter_append, pass1_filter_overlap,
    pass2_filter_overlap, List.nil_append]
  unfold pass2Issues
  unfold List.flatMap
  apply congrArg List.flatten
  apply List.map_congr_left
  intro rr _
  rw [sweepPairs_eq_filter (fieldsOfRegQ db rr.id) [] (by intro x hx; cases hx)
    (mem_fieldsOfRegQ_bounds db rr.id hf)]
  rfl

/-- Concrete store for the overlap witness: register "m" holds three
mutually overlapping fields x = [10:0], y = [15:5], z = [20:9]; register "n"
holds the adjacent, non-intersecting fields a = [3:0] and b = [7:4]. -/
def c1db : DB :=
  { blocks := [{ id := 1, name := "c", base_addr := 0, variant := none }],
    regs := [{ id := 1, block_id := 1, name := "m", offset := 0, width := 32 },
             { id := 2, block_id := 1, name := "n", offset := 4, width := 8 }],
    fields := [{ id := 1, reg_id := 1, name := "x", lsb := 0, msb := 10,
                 access := "RW", reset := 0 },
               { id := 2, reg_id := 1, name := "y", lsb := 5, msb := 15,
                 access := "RW", reset := 0 },
               { id := 3, reg_id := 1, name := "z", lsb := 9, msb := 20,
                 access := "RW", reset := 0 },
               { id := 4, reg_id := 2, name := "a", lsb := 0, msb := 3,
                 access := "RW", reset := 0 },
               { id := 5, reg_id := 2, name := "b", lsb := 4, msb := 7,
                 access := "RW", reset := 0 }],
    enums := [], constraints := [],
    nextBlockId := 2, nextRegId := 3, nextFieldId := 6, nextEnumId := 1,
    nextConstraintId := 1 }

def c1res : ValidationResult := (validate_db c1db).getD { issues := [] }

theorem c1_field_overlap_witness :
    validate_db c1db = some c1res
    ∧ (∀ f ∈ c1db.fields, f.lsb ≤ f.msb)
    ∧ (c1res.issues.filter (fun i => i.code == "FIELD_OVERLAP")
        = (regScan c1db).flatMap (fun rr =>
            ((priorPairs (fieldsOfRegQ c1db rr.id)).filter
                (fun p => closedIntersectB p.1 p.2)).map
              (mkOverlapIssue rr.blockName rr.regName))
      ∧ (∀ f o : FQ, closedIntersectB f o = true ↔
          ∃ k : Int, f.lsb ≤ k ∧ k ≤ f.msb ∧ o.lsb ≤ k ∧ k ≤ o.msb)
      ∧ (∀ rr ∈ regScan c1db,
          (priorPairs (fieldsOfRegQ c1db rr.id)).length
            = Nat.choose (fieldsOfRegQ c1db rr.id).length 2))
    ∧ (c1res.issues.filter (fun i => i.code == "FIELD_OVERLAP")).length = 3
    ∧ ((priorPairs (fieldsOfRegQ c1db 2)).filter
        (fun p => closedIntersectB p.1 p.2)) = [] :=
  ⟨rfl, by decide, c1_field_overlap c1db c1res rfl (by decide), by decide, by decide⟩

/-! ### Ordering of the issue sequence -/

/-- Block-name component of an issue's `blk.reg[.field]` path (the path is
passed as the third positional ValidationIssue argument, i.e. the `message`
field of the dataclass). -/
def issueBlockName (i : ValidationIssue) : String :=
  String.mk (i.message.data.takeWhile (fun c => !(c == '.')))

/-- Concrete store refuting the claimed block grouping: block "a" register
"r" (width 8) has f1 = [3:0] and f2 = [10:2] (range error and overlap),
block "b" register "s" (width 8) has g = [8:0] (range error).  The range
pass emits (a, then b); the overlap pass then emits a again, so issues of
block "a" are not contiguous. -/
def c2db : DB :=
  { blocks := [{ id := 1, name := "a", base_addr := 0, variant := none },
               { id := 2, name := "b", base_addr := 0, variant := none }],
    regs := [{ id := 1, block_id := 1, name := "r", offset := 0, width := 8 },
             { id := 2, block_id := 2, name := "s", offset := 0, width := 8 }],
    fields := [{ id := 1, reg_id := 1, name := "f1", lsb := 0, msb := 3,
                 access := "RW", reset := 0 },
               { id := 2, reg_id := 1, name := "f2", lsb := 2, msb := 10,
                 access := "RW", reset := 0 },
               { id := 3, reg_id := 2, name := "g", lsb := 0, msb := 8,
                 access := "RW", reset := 0 }],
    enums := [], constraints := [],
    nextBlockId := 3, nextRegId := 3, nextFieldId := 4, nextEnumId := 1,
    nextConstraintId := 1 }

def c2res : ValidationResult := (validate_db c2db).getD { issues := [] }

/-- C2 counterexample: the block names along the issue sequence of the store
above read a, b, a — the sequence is neither grouped by block nor
non-decreasing in block name, refuting the claimed ordering. -/
theorem c2_counterexample :
    validate_db c2db = some c2res
    ∧ c2res.issues.map issueBlockName = ["a", "b", "a"]
    ∧ ¬ List.Chain' strLe (c2res.issues.map issueBlockName) := by
  refine ⟨rfl, by decide, ?_⟩
  intro h
  rw [show c2res.issues.map issueBlockName = ["a", "b", "a"] from by decide] at h
  rw [List.chain'_cons, List.chain'_cons] at h
  exact absurd h.2.1 (by decide)

/-- C2 amended: the issue sequence is deterministic and is the concatenation
of the two passes: first the FIELD_RANGE / RESET_WIDTH issues, produced from
the joined field rows sorted by block name, register name and field lsb;
then every FIELD_OVERLAP issue, produced per register in reg-table order.
The combined sequence is therefore not grouped by block in general. -/
theorem c2_ordering (db : DB) (res : ValidationResult)
    (h : validate_db db = some res) :
    res.issues = pass1Issues db ++ pass2Issues db
    ∧ List.Sorted jrowLe (joinRowsSorted db)
    ∧ (∀ i ∈ pass1Issues db, i.code = "FIELD_RANGE" ∨ i.code = "RESET_WIDTH")
    ∧ (∀ i ∈ pass2Issues db, i.code = "FIELD_OVERLAP") :=
  ⟨validate_db_issues db res h,
   List.sorted_insertionSort jrowLe (joinRows db),
   fun i hi => (mem_pass1 db i hi).2,
   fun i hi => (mem_pass2 db i hi).2⟩

theorem c2_ordering_witness :
    validate_db c2db = some c2res
    ∧ (c2res.issues = pass1Issues c2db ++ pass2Issues c2db
      ∧ List.Sorted jrowLe (joinRowsSorted c2db)
      ∧ (∀ i ∈ pass1Issues c2db, i.code = "FIELD_RANGE" ∨ i.code = "RESET_WIDTH")
      ∧ (∀ i ∈ pass2Issues c2db, i.code = "FIELD_OVERLAP")) :=
  ⟨rfl, c2_ordering c2db c2res rfl⟩

/-! ### Hexadecimal rendering -/

theorem hexDigitVal_hexDigitChar (d : Nat) (hd : d < 16) :
    hexDigitVal (hexDigitChar d) = some d := by
  interval_cases d <;> decide

theorem parseHexChars_append (l1 l2 : List Char) (acc : Nat) :
    parseHexChars (l1 ++ l2) acc
      = match parseHexChars l1 acc with
        | none => none
        | some v => parseHexChars l2 v := by
  induction l1 generalizing acc with
  | nil => rfl
  | cons c cs ih =>
    cases h : hexDigitVal c with
    | none => simp only [List.cons_append, parseHexChars, h]
    | some v =>
      simp only [List.cons_append, parseHexChars, h]
      exact ih (acc * 16 + v)

theorem parseHexChars_hexCharsAux (fuel : Nat) :
    ∀ n acc, n ≤ fuel →
      parseHexChars (hexCharsAux fuel n) acc
        = some (acc * 16 ^ (hexCharsAux fuel n).length + n) := by
  induction fuel with
  | zero =>
    intro n acc h
    interval_cases n
    simp [hexCharsAux, parseHexChars]
  | succ fuel ih =>
    intro n acc h
    by_cases hn : n = 0
    · subst hn
      simp [hexCharsAux, parseHexChars]
    · rw [hexCharsAux, if_neg hn, parseHexChars_append,
        ih (n / 16) acc (by omega)]
      simp only [parseHexChars, hexDigitVal_hexDigitChar (n % 16) (by omega)]
      rw [List.length_append, List.length_singleton]
      have hp : (16 : Nat) ^ ((hexCharsAux fuel (n / 16)).length + 1)
          = 16 ^ (hexCharsAux fuel (n / 16)).length * 16 := pow_succ 16 _
      rw [hp]
      congr 1
      have hdm : 16 * (n / 16) + n % 16 = n := Nat.div_add_mod n 16
      set p := (16 : Nat) ^ (hexCharsAux fuel (n / 16)).length
      ring_nf
      omega

/-- Reading the emitted hex digits back yields the encoded value: the
base_addr / offset attributes are faithful hexadecimal renderings. -/
theorem parseHex_hexStrNat (n : Nat) : parseHex (hexStrNat n) = some n := by
  unfold hexStrNat parseHex
  by_cases h : n = 0
  · subst h
    decide
  · rw [if_neg h]
    have := parseHexChars_hexCharsAux n n 0 (le_refl n)
    simpa using this

theorem pyHex_nonneg (n : Int) (h : 0 ≤ n) :
    pyHex n = "0x" ++ hexStrNat n.toNat := by
  unfold pyHex
  rw [if_neg (by omega)]

/-! ### Claim theorems for the export projections -/

/-- C6: the XML projection has root tag "spec" with one ip_block element per
block (in name order); every ip_block carries a base_addr attribute that is
the 0x-prefixed hexadecimal rendering of its address and a variant attribute
that is always present and empty exactly for a NULL variant; register offset
attributes are hexadecimal; and a field element has an enum child (holding
one value child per enumerant) exactly when the field has enum rows. -/
theorem c6_xml_shape (db : DB)
    (hb : ∀ b ∈ db.blocks, 0 ≤ b.base_addr)
    (hr : ∀ r ∈ db.regs, 0 ≤ r.offset) :
    (export_registers_xml db).tag = "spec"
    ∧ (export_registers_xml db).children = (sortedBlocks db).map (xblockOf db)
    ∧ (∀ b ∈ db.blocks,
        (xblockOf db b).attr "base_addr" = some (pyHex b.base_addr)
        ∧ pyHex b.base_addr = "0x" ++ hexStrNat b.base_addr.toNat
        ∧ parseHex (hexStrNat b.base_addr.toNat) = some b.base_addr.toNat
        ∧ (xblockOf db b).attr "variant" = some (b.variant.getD "")
        ∧ (b.variant = none → (xblockOf db b).attr "variant" = some ""))
    ∧ (∀ r ∈ db.regs,
        (xregOf db r).attr "offset" = some (pyHex r.offset)
        ∧ pyHex r.offset = "0x" ++ hexStrNat r.offset.toNat
        ∧ parseHex (hexStrNat r.offset.toNat) = some r.offset.toNat)
    ∧ (∀ f : FieldRow,
        ((xfieldOf db f).children = [] ↔ enumsOfFieldQ db f.id = [])
        ∧ (enumsOfFieldQ db f.id ≠ [] →
            (xfieldOf db f).children
              = [Xml.el "enum" [] ((enumsOfFieldQ db f.id).map xvalueOf)])) := by
  refine ⟨rfl, rfl, ?_, ?_, ?_⟩
  · intro b hbm
    refine ⟨rfl, pyHex_nonneg b.base_addr (hb b hbm), parseHex_hexStrNat _, rfl, ?_⟩
    intro hv
    show some (b.variant.getD "") = some ""
    rw [hv]
    rfl
  · intro r hrm
    exact ⟨rfl, pyHex_nonneg r.offset (hr r hrm), parseHex_hexStrNat _⟩
  · intro f
    constructor
    · show (if (enumsOfFieldQ db f.id).isEmpty then ([] : List Xml) else _) = [] ↔ _
      by_cases he : enumsOfFieldQ db f.id = []
      · simp [he]
      · rw [if_neg (by simpa [List.isEmpty_iff] using he)]
        simp [he]
    · intro he
      show (if (enumsOfFieldQ db f.id).isEmpty then ([] : List Xml) else _) = _
      rw [if_neg (by simpa [List.isEmpty_iff] using he)]

/-- Concrete store for the XML witness (scenario E of the spec): block "B"
at 0x1000, one register at offset 0x10, a field with two enumerants and a
field with none. -/
def c6db : DB :=
  { blocks := [{ id := 1, name := "B", base_addr := 4096, variant := none }],
    regs := [{ id := 1, block_id := 1, name := "R", offset := 16, width := 32 }],
    fields := [{ id := 1, reg_id := 1, name := "MODE", lsb := 0, msb := 1,
                 access := "RW", reset := 0 },
               { id := 2, reg_id := 1, name := "EN", lsb := 2, msb := 2,
                 access := "RW", reset := 0 }],
    enums := [{ id := 1, field_id := 1, name := "ON", value := 1 },
              { id := 2, field_id := 1, name := "OFF", value := 0 }],
    constraints := [],
    nextBlockId := 2, nextRegId := 2, nextFieldId := 3, nextEnumId := 3,
    nextConstraintId := 1 }

theorem c6_xml_shape_witness :
    (∀ b ∈ c6db.blocks, 0 ≤ b.base_addr)
    ∧ (∀ r ∈ c6db.regs, 0 ≤ r.offset)
    ∧ ((export_registers_xml c6db).tag = "spec"
      ∧ (export_registers_xml c6db).children = (sortedBlocks c6db).map (xblockOf c6db)
      ∧ (∀ b ∈ c6db.blocks,
          (xblockOf c6db b).attr "base_addr" = some (pyHex b.base_addr)
          ∧ pyHex b.base_addr = "0x" ++ hexStrNat b.base_addr.toNat
          ∧ parseHex (hexStrNat b.base_addr.toNat) = some b.base_addr.toNat
          ∧ (xblockOf c6db b).attr "variant" = some (b.variant.getD "")
          ∧ (b.variant = none → (xblockOf c6db b).attr "variant" = some ""))
      ∧ (∀ r ∈ c6db.regs,
          (xregOf c6db r).attr "offset" = some (pyHex r.offset)
          ∧ pyHex r.offset = "0x" ++ hexStrNat r.offset.toNat
          ∧ parseHex (hexStrNat r.offset.toNat) = some r.offset.toNat)
      ∧ (∀ f : FieldRow,
          ((xfieldOf c6db f).children = [] ↔ enumsOfFieldQ c6db f.id = [])
          ∧ (enumsOfFieldQ c6db f.id ≠ [] →
              (xfieldOf c6db f).children
                = [Xml.el "enum" [] ((enumsOfFieldQ c6db f.id).map xvalueOf)])))
    ∧ (xblockOf c6db { id := 1, name := "B", base_addr := 4096, variant := none }).attr
        "base_addr" = some "0x1000" :=
  ⟨by decide, by decide, c6_xml_shape c6db (by decide) (by decide), by decide⟩

/-- C7: the JSON projection lists blocks in ascending name order, registers
in ascending offset order, fields in ascending lsb order; a field's enum
entry is null exactly when the field has no enum rows and otherwise is the
list of its {name, value} objects in ascending value order. -/
theorem c7_json_proj (db : DB) :
    List.Sorted blockNameLe (sortedBlocks db)
    ∧ export_registers_json db = (sortedBlocks db).map (jblockOf db)
    ∧ (∀ b : BlockRow, List.Sorted regOffsetLe (regsOfBlockQ db b.id)
        ∧ (jblockOf db b).registers = (regsOfBlockQ db b.id).map (jregOf db))
    ∧ (∀ r : RegRow, List.Sorted fieldLsbLe (fieldsOfRegFullQ db r.id)
        ∧ (jregOf db r).fields = (fieldsOfRegFullQ db r.id).map (jfieldOf db))
    ∧ (∀ f : FieldRow, List.Sorted enumValueLe (enumsOfFieldQ db f.id)
        ∧ ((jfieldOf db f).enum = none ↔ enumsOfFieldQ db f.id = [])
        ∧ (jfieldOf db f).enum.getD []
            = (enumsOfFieldQ db f.id).map (fun e => { name := e.name, value := e.value })) := by
  refine ⟨List.sorted_insertionSort blockNameLe db.blocks, rfl, ?_, ?_, ?_⟩
  · intro b
    exact ⟨List.sorted_insertionSort regOffsetLe _, rfl⟩
  · intro r
    exact ⟨List.sorted_insertionSort fieldLsbLe _, rfl⟩
  · intro f
    refine ⟨List.sorted_insertionSort enumValueLe _, ?_, ?_⟩
    · show (if (enumsOfFieldQ db f.id).isEmpty then none else some _) = none ↔ _
      by_cases he : enumsOfFieldQ db f.id = []
      · simp [he]
      · rw [if_neg (by simpa [List.isEmpty_iff] using he)]
        simp [he]
    · show (if (enumsOfFieldQ db f.id).isEmpty then none else some _).getD [] = _
      by_cases he : enumsOfFieldQ db f.id = []
      · simp [he]
      · rw [if_neg (by simpa [List.isEmpty_iff] using he)]
        rfl

/-! ### Upsert post-conditions -/

/-- Key of a block row under the unique index ux_block_name_variant. -/
def bkey (b : BlockRow) : String × String := (b.name, vkey b.variant)

/-- Key of an ingested block under a bundle's variant tag. -/
def dkey (blk : IPBlockDef) (variant : Option String) : String × String :=
  (blk.name, vkey variant)

def keyfnB (k : String × String) (b : BlockRow) : Bool :=
  b.name == k.1 && vkey b.variant == k.2

def blocksWithKey (db : DB) (k : String × String) : List BlockRow :=
  db.blocks.filter (keyfnB k)

def regRowsOfBlock (db : DB) (bid : Nat) : List RegRow :=
  db.regs.filter (fun r => r.block_id == bid)

def regProj (r : RegRow) : String × Int × Int := (r.name, r.offset, r.width)

def regDefProj (r : RegisterDef) : String × Int × Int := (r.name, r.offset, r.width)

/-- The register listing query of a block, projected to its visible columns
(name, offset, width) in ascending offset order. -/
def listRegsOfBlock (db : DB) (bid : Nat) : List (String × Int × Int) :=
  (regsOfBlockQ db bid).map regProj

def tripOffLe (a b : String × Int × Int) : Prop := a.2.1 ≤ b.2.1

instance : DecidableRel tripOffLe := fun a b =>
  inferInstanceAs (Decidable (a.2.1 ≤ b.2.1))

instance : IsTotal (String × Int × Int) tripOffLe := ⟨fun a b => le_total a.2.1 b.2.1⟩

instance : IsTrans (String × Int × Int) tripOffLe := ⟨fun _ _ _ h1 h2 => le_trans h1 h2⟩

/-- The projected register set of an ingested block, offset-sorted: what the
listing query returns once the block holds exactly those registers. -/
def sortedRegSet (rs : List RegisterDef) : List (String × Int × Int) :=
  List.insertionSort tripOffLe (rs.map regDefProj)

/-- Schema invariants of the ip_block table: primary-key ids are unique and
below the AUTOINCREMENT counter, and ux_block_name_variant holds. -/
def DBWF (db : DB) : Prop :=
  (db.blocks.map (fun b => b.id)).Nodup
  ∧ (∀ b ∈ db.blocks, b.id < db.nextBlockId)
  ∧ (db.blocks.map bkey).Nodup

theorem keyfnB_iff (k : String × String) (b : BlockRow) :
    keyfnB k b = true ↔ bkey b = k := by
  simp [keyfnB, bkey, Prod.ext_iff]

theorem filter_keyfnB_eq_nil (l : List BlockRow) (k : String × String)
    (h : ∀ b ∈ l, bkey b ≠ k) : l.filter (keyfnB k) = [] := by
  rw [List.filter_eq_nil_iff]
  intro b hb
  simp only [keyfnB_iff]
  exact h b hb

theorem filter_keyfnB_unique (l : List BlockRow) (hk : (l.map bkey).Nodup)
    (row : BlockRow) (hrow : row ∈ l) (k : String × String) (hbk : bkey row = k) :
    l.filter (keyfnB k) = [row] := by
  induction l with
  | nil => cases hrow
  | cons b l ih =>
    rw [List.map_cons, List.nodup_cons] at hk
    rcases List.mem_cons.mp hrow with he | hm
    · subst he
      rw [List.filter_cons_of_pos (by simp only [keyfnB_iff]; exact hbk)]
      rw [filter_keyfnB_eq_nil l k ?_]
      intro x hx hxk
      exact hk.1 (by rw [← hbk] at hxk; exact hxk ▸ List.mem_map_of_mem bkey hx)
    · have hbk2 : bkey b ≠ k := by
        intro he2
        apply hk.1
        rw [he2, ← hbk]
        exact List.mem_map_of_mem bkey hm
      rw [List.filter_cons_of_neg (by simp only [keyfnB_iff]; exact hbk2)]
      exact ih hk.2 hm


theorem updBase_bkey (base : Int) (rid : Nat) (b : BlockRow) :
    bkey (updBase base rid b) = bkey b := by
  unfold updBase
  by_cases hb : b.id == rid
  · simp [hb, bkey]
  · simp [hb]

theorem updBase_id (base : Int) (rid : Nat) (b : BlockRow) :
    (updBase base rid b).id = b.id := by
  unfold updBase
  by_cases hb : b.id == rid
  · simp [hb]
  · simp [hb]

theorem getOrCreateBlock_spec (db : DB) (name : String) (base : Int)
    (variant : Option String) (hwf : DBWF db) :
    ∃ bid db1, getOrCreateBlock db name base variant = (bid, db1)
    ∧ db1.regs = db.regs ∧ db1.fields = db.fields ∧ db1.enums = db.enums
    ∧ db1.nextRegId = db.nextRegId ∧ db1.nextFieldId = db.nextFieldId
    ∧ DBWF db1
    ∧ db.nextBlockId ≤ db1.nextBlockId
    ∧ bid < db1.nextBlockId
    ∧ (∃ var, vkey var = vkey variant
        ∧ blocksWithKey db1 (name, vkey variant)
            = [{ id := bid, name := name, base_addr := base, variant := var }])
    ∧ (∀ k, k ≠ (name, vkey variant) → blocksWithKey db1 k = blocksWithKey db k)
    ∧ ((∃ rowOld, rowOld ∈ db.blocks ∧ bkey rowOld = (name, vkey variant)
          ∧ bid = rowOld.id) ∨ bid = db.nextBlockId) := by
  obtain ⟨hids, hlt, hkeys⟩ := hwf
  cases hfind : db.blocks.find? (fun b => b.name == name && vkey b.variant == vkey variant) with
  | some row =>
    have hpred := List.find?_some hfind
    have hrowmem := List.mem_of_find?_eq_some hfind
    have hname : row.name = name := by
      have := (Bool.and_eq_true _ _).mp hpred
      exact beq_iff_eq.mp this.1
    have hvar : vkey row.variant = vkey variant := by
      have := (Bool.and_eq_true _ _).mp hpred
      exact beq_iff_eq.mp this.2
    have hbkeyrow : bkey row = (name, vkey variant) := by
      simp [bkey, hname, hvar]
    refine ⟨row.id, { db with blocks := db.blocks.map (updBase base row.id) },
      ?_, rfl, rfl, rfl, rfl, rfl, ?_, le_refl _, hlt row hrowmem, ?_, ?_,
      Or.inl ⟨row, hrowmem, hbkeyrow, rfl⟩⟩
    · unfold getOrCreateBlock
      rw [hfind]
    · refine ⟨?_, ?_, ?_⟩
      · show ((db.blocks.map (updBase base row.id)).map (fun b => b.id)).Nodup
        rw [List.map_map]
        have he : ((fun b : BlockRow => b.id) ∘ updBase base row.id)
            = fun b : BlockRow => b.id := by
          funext b
          exact updBase_id base row.id b
        rw [he]
        exact hids
      · intro b hb
        rcases List.mem_map.mp hb with ⟨b0, hb0, hb0e⟩
        rw [← hb0e, updBase_id]
        exact hlt b0 hb0
      · show ((db.blocks.map (updBase base row.id)).map bkey).Nodup
        rw [List.map_map]
        have he : (bkey ∘ updBase base row.id) = bkey := by
          funext b
          exact updBase_bkey base row.id b
        rw [he]
        exact hkeys
    · refine ⟨row.variant, hvar, ?_⟩
      show (db.blocks.map (updBase base row.id)).filter (keyfnB (name, vkey variant)) = _
      rw [List.filter_map]
      have hcong : db.blocks.filter (keyfnB (name, vkey variant) ∘ updBase base row.id)
          = db.blocks.filter (keyfnB (name, vkey variant)) := by
        apply List.filter_congr
        intro b _
        show keyfnB (name, vkey variant) (updBase base row.id b)
            = keyfnB (name, vkey variant) b
        rw [← Bool.coe_iff_coe, keyfnB_iff, keyfnB_iff, updBase_bkey]
      rw [hcong, filter_keyfnB_unique db.blocks hkeys row hrowmem _ hbkeyrow]
      rw [List.map_singleton]
      congr 1
      unfold updBase
      simp [hname]
    · intro k hk
      show (db.blocks.map (updBase base row.id)).filter (keyfnB k)
          = db.blocks.filter (keyfnB k)
      rw [List.filter_map]
      have hcong : db.blocks.filter (keyfnB k ∘ updBase base row.id)
          = db.blocks.filter (keyfnB k) := by
        apply List.filter_congr
        intro b _
        show keyfnB k (updBase base row.id b) = keyfnB k b
        rw [← Bool.coe_iff_coe, keyfnB_iff, keyfnB_iff, updBase_bkey]
      rw [hcong]
      have hmapid : List.map (updBase base row.id) (List.filter (keyfnB k) db.blocks)
          = List.map id (List.filter (keyfnB k) db.blocks) := by
        apply List.map_congr_left
        intro b hb
        rcases List.mem_filter.mp hb with ⟨hbm, hbk⟩
        have hbkey : bkey b = k := (keyfnB_iff k b).mp hbk
        have hbne : b ≠ row := by
          intro he
          apply hk
          rw [← hbkey, he, hbkeyrow]
        have hbid : b.id ≠ row.id := by
          intro he
          exact hbne (List.inj_on_of_nodup_map hids hbm hrowmem he)
        unfold updBase
        simp [hbid]
      rw [hmapid, List.map_id]
  | none =>
    have hnone := List.find?_eq_none.mp hfind
    have hnokeys : ∀ b ∈ db.blocks, bkey b ≠ (name, vkey variant) := by
      intro b hb he
      apply hnone b hb
      exact (keyfnB_iff _ _).mpr he
    refine ⟨db.nextBlockId,
      { db with
        blocks := db.blocks ++ [{ id := db.nextBlockId, name := name,
                                  base_addr := base, variant := variant }],
        nextBlockId := db.nextBlockId + 1 },
      ?_, rfl, rfl, rfl, rfl, rfl, ?_, Nat.le_succ _, Nat.lt_succ_self _, ?_, ?_,
      Or.inr rfl⟩
    · unfold getOrCreateBlock
      rw [hfind]
    · refine ⟨?_, ?_, ?_⟩
      · show ((db.blocks ++ [_]).map (fun b : BlockRow => b.id)).Nodup
        rw [List.map_append, List.map_singleton, List.nodup_append]
        refine ⟨hids, List.nodup_singleton _, ?_⟩
        intro x hx hy
        rw [List.mem_singleton.mp hy] at hx
        rcases List.mem_map.mp hx with ⟨b, hb, hbe⟩
        have hbe2 : b.id = db.nextBlockId := hbe
        have := hlt b hb
        omega
      · intro b hb
        rcases List.mem_append.mp hb with h | h
        · exact Nat.lt_succ_of_lt (hlt b h)
        · rw [List.mem_singleton.mp h]
          exact Nat.lt_succ_self _
      · show ((db.blocks ++ [_]).map bkey).Nodup
        rw [List.map_append, List.map_singleton, List.nodup_append]
        refine ⟨hkeys, List.nodup_singleton _, ?_⟩
        intro x hx hy
        rw [List.mem_singleton.mp hy] at hx
        rcases List.mem_map.mp hx with ⟨b, hb, hbe⟩
        apply hnokeys b hb
        rw [hbe]
        rfl
    · refine ⟨variant, rfl, ?_⟩
      show (db.blocks ++ [_]).filter (keyfnB (name, vkey variant)) = _
      rw [List.filter_append, filter_keyfnB_eq_nil db.blocks _ hnokeys, List.nil_append]
      rw [List.filter_cons_of_pos (by rw [keyfnB_iff]; rfl)]
      rfl
    · intro k hk
      show (db.blocks ++ [_]).filter (keyfnB k) = db.blocks.filter (keyfnB k)
      rw [List.filter_append]
      rw [List.filter_cons_of_neg ?_, List.filter_nil, List.append_nil]
      simp only [keyfnB_iff]
      intro he
      apply hk
      rw [← he]
      rfl

theorem insertEnumVals_frame (es : List EnumValue) :
    ∀ db fid db', insertEnumVals db fid es = some db' →
      db'.blocks = db.blocks ∧ db'.regs = db.regs ∧ db'.fields = db.fields
      ∧ db'.nextBlockId = db.nextBlockId ∧ db'.nextRegId = db.nextRegId := by
  induction es with
  | nil =>
    intro db fid db' h
    cases h
    exact ⟨rfl, rfl, rfl, rfl, rfl⟩
  | cons e es ih =>
    intro db fid db' h
    rw [insertEnumVals] at h
    cases hstep : insertEnumVal db fid e with
    | none => rw [hstep] at h; cases h
    | some db1 =>
      rw [hstep] at h
      obtain ⟨hb1, hr1, hf1, hnb1, hnr1⟩ : db1.blocks = db.blocks ∧ db1.regs = db.regs
          ∧ db1.fields = db.fields ∧ db1.nextBlockId = db.nextBlockId
          ∧ db1.nextRegId = db.nextRegId := by
        unfold insertEnumVal at hstep
        split at hstep
        · cases hstep
        · cases hstep
          exact ⟨rfl, rfl, rfl, rfl, rfl⟩
      obtain ⟨hb2, hr2, hf2, hnb2, hnr2⟩ := ih db1 fid db' h
      exact ⟨hb2.trans hb1, hr2.trans hr1, hf2.trans hf1, hnb2.trans hnb1,
        hnr2.trans hnr1⟩

theorem insertFieldTree_post (db : DB) (rid : Nat) (f : FieldDef) (db' : DB)
    (h : insertFieldTree db rid f = some db') :
    db'.blocks = db.blocks ∧ db'.regs = db.regs
    ∧ db'.nextBlockId = db.nextBlockId ∧ db'.nextRegId = db.nextRegId
    ∧ ∃ newF : List FieldRow, db'.fields = db.fields ++ newF
        ∧ ∀ fr ∈ newF, fr.reg_id = rid ∧ fr.lsb = f.lsb ∧ fr.msb = f.msb := by
  unfold insertFieldTree at h
  cases hrow : insertFieldRow db rid f with
  | none => rw [hrow] at h; cases h
  | some p =>
    rw [hrow] at h
    unfold insertFieldRow at hrow
    split at hrow
    · cases hrow
    · cases hrow
      obtain ⟨hb, hr, hf, hnb, hnr⟩ := insertEnumVals_frame _ _ _ _ h
      refine ⟨hb, hr, hnb, hnr,
        [{ id := db.nextFieldId, reg_id := rid, name := f.name, lsb := f.lsb,
           msb := f.msb, access := f.access, reset := f.reset }], hf, ?_⟩
      intro fr hfr
      rw [List.mem_singleton.mp hfr]
      exact ⟨rfl, rfl, rfl⟩

theorem insertFieldTrees_post (fs : List FieldDef) :
    ∀ db rid db', insertFieldTrees db rid fs = some db' →
      db'.blocks = db.blocks ∧ db'.regs = db.regs
      ∧ db'.nextBlockId = db.nextBlockId ∧ db'.nextRegId = db.nextRegId
      ∧ ∃ newF : List FieldRow, db'.fields = db.fields ++ newF
          ∧ ∀ fr ∈ newF, fr.reg_id = rid ∧ ∃ fd ∈ fs, fr.lsb = fd.lsb ∧ fr.msb = fd.msb := by
  induction fs with
  | nil =>
    intro db rid db' h
    cases h
    exact ⟨rfl, rfl, rfl, rfl, [], (List.append_nil _).symm, by intro fr hfr; cases hfr⟩
  | cons f fs ih =>
    intro db rid db' h
    rw [insertFieldTrees] at h
    cases hstep : insertFieldTree db rid f with
    | none => rw [hstep] at h; cases h
    | some db1 =>
      rw [hstep] at h
      obtain ⟨hb1, hr1, hnb1, hnr1, newF1, hf1, hmem1⟩ :=
        insertFieldTree_post db rid f db1 hstep
      obtain ⟨hb2, hr2, hnb2, hnr2, newF2, hf2, hmem2⟩ := ih db1 rid db' h
      refine ⟨hb2.trans hb1, hr2.trans hr1, hnb2.trans hnb1, hnr2.trans hnr1,
        newF1 ++ newF2, ?_, ?_⟩
      · rw [hf2, hf1, List.append_assoc]
      · intro fr hfr
        rcases List.mem_append.mp hfr with hm | hm
        · obtain ⟨hrid, hl, hm2⟩ := hmem1 fr hm
          exact ⟨hrid, f, List.mem_cons_self f fs, hl, hm2⟩
        · obtain ⟨hrid, fd, hfd, hl, hm2⟩ := hmem2 fr hm
          exact ⟨hrid, fd, List.mem_cons_of_mem f hfd, hl, hm2⟩

theorem insertRegTree_post (db : DB) (bid : Nat) (r : RegisterDef) (db' : DB)
    (h : insertRegTree db bid r = some db') :
    db'.blocks = db.blocks ∧ db'.nextBlockId = db.nextBlockId
    ∧ (∃ q : RegRow, db'.regs = db.regs ++ [q] ∧ q.block_id = bid
        ∧ regProj q = regDefProj r)
    ∧ (∃ newF : List FieldRow, db'.fields = db.fields ++ newF
        ∧ ∀ fr ∈ newF, ∃ fd ∈ r.fields, fr.lsb = fd.lsb ∧ fr.msb = fd.msb) := by
  unfold insertRegTree at h
  cases hrow : insertReg db bid r with
  | none => rw [hrow] at h; cases h
  | some p =>
    rw [hrow] at h
    unfold insertReg at hrow
    split at hrow
    · cases hrow
    · cases hrow
      obtain ⟨hb, hr, hnb, hnr, newF, hf, hmem⟩ := insertFieldTrees_post r.fields _ _ _ h
      refine ⟨hb, hnb,
        ⟨{ id := db.nextRegId, block_id := bid, name := r.name, offset := r.offset,
           width := r.width }, hr, rfl, rfl⟩,
        newF, hf, ?_⟩
      intro fr hfr
      obtain ⟨_, fd, hfd, hl, hm⟩ := hmem fr hfr
      exact ⟨fd, hfd, hl, hm⟩

theorem insertRegTrees_post (rs : List RegisterDef) :
    ∀ db bid db', insertRegTrees db bid rs = some db' →
      db'.blocks = db.blocks ∧ db'.nextBlockId = db.nextBlockId
      ∧ (∃ newRegs : List RegRow, db'.regs = db.regs ++ newRegs
          ∧ newRegs.map regProj = rs.map regDefProj
          ∧ ∀ q ∈ newRegs, q.block_id = bid)
      ∧ (∃ newF : List FieldRow, db'.fields = db.fields ++ newF
          ∧ ∀ fr ∈ newF, ∃ rd ∈ rs, ∃ fd ∈ rd.fields,
              fr.lsb = fd.lsb ∧ fr.msb = fd.msb) := by
  induction rs with
  | nil =>
    intro db bid db' h
    cases h
    exact ⟨rfl, rfl, ⟨[], (List.append_nil _).symm, rfl, by intro q hq; cases hq⟩,
      [], (List.append_nil _).symm, by intro fr hfr; cases hfr⟩
  | cons r rs ih =>
    intro db bid db' h
    rw [insertRegTrees] at h
    cases hstep : insertRegTree db bid r with
    | none => rw [hstep] at h; cases h
    | some db1 =>
      rw [hstep] at h
      obtain ⟨hb1, hnb1, ⟨q, hr1, hqb, hqp⟩, newF1, hf1, hmem1⟩ :=
        insertRegTree_post db bid r db1 hstep
      obtain ⟨hb2, hnb2, ⟨newRegs, hr2, hproj, hbid⟩, newF2, hf2, hmem2⟩ := ih db1 bid db' h
      refine ⟨hb2.trans hb1, hnb2.trans hnb1,
        ⟨q :: newRegs, ?_, ?_, ?_⟩, newF1 ++ newF2, ?_, ?_⟩
      · rw [hr2, hr1]
        simp [List.append_assoc]
      · rw [List.map_cons, List.map_cons, hproj, hqp]
      · intro x hx
        rcases List.mem_cons.mp hx with he | hm
        · rw [he]
          exact hqb
        · exact hbid x hm
      · rw [hf2, hf1, List.append_assoc]
      · intro fr hfr
        rcases List.mem_append.mp hfr with hm | hm
        · obtain ⟨fd, hfd, hl, hm2⟩ := hmem1 fr hm
          exact ⟨r, List.mem_cons_self r rs, fd, hfd, hl, hm2⟩
        · obtain ⟨rd, hrd, fd, hfd, hl, hm2⟩ := hmem2 fr hm
          exact ⟨rd, List.mem_cons_of_mem r hrd, fd, hfd, hl, hm2⟩

theorem upsertBlockTree_post (db : DB) (variant : Option String) (blk : IPBlockDef)
    (db' : DB) (hwf : DBWF db) (h : upsertBlockTree db variant blk = some db') :
    DBWF db'
    ∧ db.nextBlockId ≤ db'.nextBlockId
    ∧ (∃ bid var, vkey var = vkey variant ∧ bid < db'.nextBlockId
        ∧ blocksWithKey db' (dkey blk variant)
            = [{ id := bid, name := blk.name, base_addr := blk.base_addr, variant := var }]
        ∧ (regRowsOfBlock db' bid).map regProj = blk.registers.map regDefProj
        ∧ (∀ k, k ≠ dkey blk variant → blocksWithKey db' k = blocksWithKey db k)
        ∧ (∀ i, i ≠ bid → regRowsOfBlock db' i = regRowsOfBlock db i)
        ∧ ((∃ rowOld, rowOld ∈ db.blocks ∧ bkey rowOld = dkey blk variant
              ∧ bid = rowOld.id) ∨ bid = db.nextBlockId))
    ∧ (∃ newF : List FieldRow, db'.fields = db.fields ++ newF
        ∧ ∀ fr ∈ newF, ∃ rd ∈ blk.registers, ∃ fd ∈ rd.fields,
            fr.lsb = fd.lsb ∧ fr.msb = fd.msb) := by
  obtain ⟨bid, db1, heq, hregs1, hfields1, henums1, hnri1, hnfi1, hwf1, hnbmono,
    hbidlt, ⟨var, hvar, hkey1⟩, hother1, horigin⟩ :=
    getOrCreateBlock_spec db blk.name blk.base_addr variant hwf
  unfold upsertBlockTree at h
  rw [heq] at h
  obtain ⟨hb2, hnb2, ⟨newRegs, hr2, hproj, hallbid⟩, newF, hf2, hmemF⟩ :=
    insertRegTrees_post blk.registers _ bid db' h
  have hblocks' : db'.blocks = db1.blocks := hb2
  have hnb' : db'.nextBlockId = db1.nextBlockId := hnb2
  have hfields' : db'.fields = db.fields ++ newF := by
    rw [hf2]
    show db1.fields ++ newF = db.fields ++ newF
    rw [hfields1]
  refine ⟨?_, ?_, ⟨bid, var, hvar, ?_, ?_, ?_, ?_, ?_, horigin⟩, newF, hfields', hmemF⟩
  · obtain ⟨h1, h2, h3⟩ := hwf1
    refine ⟨?_, ?_, ?_⟩
    · rw [hblocks']
      exact h1
    · intro b hb
      rw [hblocks'] at hb
      rw [hnb']
      exact h2 b hb
    · rw [hblocks']
      exact h3
  · rw [hnb']
    exact hnbmono
  · rw [hnb']
    exact hbidlt
  · show db'.blocks.filter (keyfnB (dkey blk variant)) = _
    rw [hblocks']
    exact hkey1
  · show (db'.regs.filter (fun r => r.block_id == bid)).map regProj = _
    rw [hr2, List.filter_append]
    have hold : (db1.regs.filter (fun r => !(r.block_id == bid))).filter
        (fun r => r.block_id == bid) = [] := by
      rw [List.filter_filter, List.filter_eq_nil_iff]
      intro r _
      by_cases hrb : r.block_id == bid
      · simp [hrb]
      · simp [hrb]
    show ((db1.regs.filter (fun r => !(r.block_id == bid))).filter
        (fun r => r.block_id == bid) ++ newRegs.filter (fun r => r.block_id == bid)).map
        regProj = _
    rw [hold, List.nil_append]
    have hnew : newRegs.filter (fun r => r.block_id == bid) = newRegs := by
      rw [List.filter_eq_self]
      intro q hq
      exact beq_iff_eq.mpr (hallbid q hq)
    rw [hnew, hproj]
  · intro k hk
    show db'.blocks.filter (keyfnB k) = db.blocks.filter (keyfnB k)
    rw [hblocks']
    exact hother1 k hk
  · intro i hi
    show db'.regs.filter (fun r => r.block_id == i) = db.regs.filter (fun r => r.block_id == i)
    rw [hr2, List.filter_append]
    have hnew : newRegs.filter (fun r => r.block_id == i) = [] := by
      rw [List.filter_eq_nil_iff]
      intro q hq
      have := hallbid q hq
      simp only [beq_iff_eq]
      rw [this]
      exact fun he => hi he.symm
    rw [hnew, List.append_nil]
    show (db1.regs.filter (fun r => !(r.block_id == bid))).filter
        (fun r => r.block_id == i) = _
    rw [List.filter_filter]
    have hcong : db1.regs.filter (fun r => (r.block_id == i) && !(r.block_id == bid))
        = db1.regs.filter (fun r => r.block_id == i) := by
      apply List.filter_congr
      intro r _
      by_cases hri : r.block_id == i
      · have : ¬ (r.block_id == bid) = true := by
          simp only [beq_iff_eq]
          rw [beq_iff_eq.mp hri]
          exact fun he => hi (he ▸ rfl)
        simp [hri, this]
      · simp [hri]
    rw [hcong, hregs1]

theorem upsertBlockTrees_pres (blks : List IPBlockDef) :
    ∀ db variant db', DBWF db → upsertBlockTrees db variant blks = some db' →
      DBWF db' ∧ db.nextBlockId ≤ db'.nextBlockId
      ∧ (∀ k, k ∉ blks.map (fun b => dkey b variant) →
          blocksWithKey db' k = blocksWithKey db k
          ∧ ∀ row ∈ blocksWithKey db k,
              regRowsOfBlock db' row.id = regRowsOfBlock db row.id) := by
  induction blks with
  | nil =>
    intro db variant db' hwf h
    cases h
    exact ⟨hwf, le_refl _, fun k _ => ⟨rfl, fun _ _ => rfl⟩⟩
  | cons blk blks ih =>
    intro db variant db' hwf h
    rw [upsertBlockTrees] at h
    cases hstep : upsertBlockTree db variant blk with
    | none => rw [hstep] at h; cases h
    | some db1 =>
      rw [hstep] at h
      obtain ⟨hwf1, hmono1, ⟨bid, var, hvar, hbidlt, hkey1, hregs1, hotherK, hotherReg,
        horigin⟩, _⟩ := upsertBlockTree_post db variant blk db1 hwf hstep
      obtain ⟨hwf', hmono', hpres'⟩ := ih db1 variant db' hwf1 h
      refine ⟨hwf', le_trans hmono1 hmono', ?_⟩
      intro k hk
      have hkhead : k ≠ dkey blk variant := by
        intro he
        apply hk
        rw [List.map_cons]
        exact he ▸ List.mem_cons_self _ _
      have hktail : k ∉ blks.map (fun b => dkey b variant) := by
        intro hm
        apply hk
        rw [List.map_cons]
        exact List.mem_cons_of_mem _ hm
      obtain ⟨hkeq', hreg'⟩ := hpres' k hktail
      constructor
      · rw [hkeq']
        exact hotherK k hkhead
      · intro row hrow
        have hrow1 : row ∈ blocksWithKey db1 k := by
          rw [hotherK k hkhead]
          exact hrow
        have hrowdb : row ∈ db.blocks := (List.mem_filter.mp hrow).1
        have hrowkey : bkey row = k := (keyfnB_iff k row).mp (List.mem_filter.mp hrow).2
        have hrowne : row.id ≠ bid := by
          rcases horigin with ⟨rowOld, hrom, hrokey, hbide⟩ | hfresh
          · intro he
            have : row = rowOld :=
              List.inj_on_of_nodup_map hwf.1 hrowdb hrom (he.trans hbide ▸ rfl)
            apply hkhead
            rw [← hrowkey, this, hrokey]
          · intro he
            have := hwf.2.1 row hrowdb
            rw [he, hfresh] at this
            exact lt_irrefl _ this
      -- regRowsOfBlock db' row.id = regRowsOfBlock db row.id
        rw [hreg' row hrow1]
        exact hotherReg row.id hrowne

theorem upsertBlockTrees_post (blks : List IPBlockDef) :
    ∀ db variant db', DBWF db → (blks.map (fun b => dkey b variant)).Nodup →
      upsertBlockTrees db variant blks = some db' →
      DBWF db'
      ∧ (∀ blk ∈ blks, ∃ bid var, vkey var = vkey variant
          ∧ blocksWithKey db' (dkey blk variant)
              = [{ id := bid, name := blk.name, base_addr := blk.base_addr,
                   variant := var }]
          ∧ (regRowsOfBlock db' bid).map regProj = blk.registers.map regDefProj) := by
  induction blks with
  | nil =>
    intro db variant db' hwf _ h
    cases h
    exact ⟨hwf, fun blk hblk => absurd hblk (List.not_mem_nil blk)⟩
  | cons blk blks ih =>
    intro db variant db' hwf hnodup h
    rw [List.map_cons, List.nodup_cons] at hnodup
    rw [upsertBlockTrees] at h
    cases hstep : upsertBlockTree db variant blk with
    | none => rw [hstep] at h; cases h
    | some db1 =>
      rw [hstep] at h
      obtain ⟨hwf1, _, ⟨bid, var, hvar, _, hkey1, hregs1, _, _, _⟩, _⟩ :=
        upsertBlockTree_post db variant blk db1 hwf hstep
      obtain ⟨hwf', htail⟩ := ih db1 variant db' hwf1 hnodup.2 h
      obtain ⟨_, _, hpres⟩ := upsertBlockTrees_pres blks db1 variant db' hwf1 h
      refine ⟨hwf', ?_⟩
      intro b hb
      rcases List.mem_cons.mp hb with he | hm
      · subst he
        obtain ⟨hkeq, hreg⟩ := hpres (dkey b variant) hnodup.1
        refine ⟨bid, var, hvar, ?_, ?_⟩
        · rw [hkeq]
          exact hkey1
        · have hrowmem : BlockRow.mk bid b.name b.base_addr var
              ∈ blocksWithKey db1 (dkey b variant) := by
            rw [hkey1]
            exact List.mem_singleton_self _
          have hre := hreg _ hrowmem
          rw [show (BlockRow.mk bid b.name b.base_addr var).id = bid from rfl] at hre
          rw [hre]
          exact hregs1
      · exact htail b hm

theorem getOrCreateBlock_fields (db : DB) (name : String) (base : Int)
    (variant : Option String) :
    (getOrCreateBlock db name base variant).2.fields = db.fields := by
  unfold getOrCreateBlock
  cases db.blocks.find? (fun b => b.name == name && vkey b.variant == vkey variant) with
  | some row => rfl
  | none => rfl

theorem upsertBlockTree_fields (db : DB) (variant : Option String) (blk : IPBlockDef)
    (db' : DB) (h : upsertBlockTree db variant blk = some db') :
    ∃ newF : List FieldRow, db'.fields = db.fields ++ newF
      ∧ ∀ fr ∈ newF, ∃ rd ∈ blk.registers, ∃ fd ∈ rd.fields,
          fr.lsb = fd.lsb ∧ fr.msb = fd.msb := by
  unfold upsertBlockTree at h
  obtain ⟨_, _, _, newF, hf, hmem⟩ :=
    insertRegTrees_post blk.registers _ _ db' h
  refine ⟨newF, ?_, hmem⟩
  rw [hf]
  show (getOrCreateBlock db blk.name blk.base_addr variant).2.fields ++ newF = _
  rw [getOrCreateBlock_fields]

theorem upsertBlockTrees_fields (blks : List IPBlockDef) :
    ∀ db variant db', upsertBlockTrees db variant blks = some db' →
      ∃ newF : List FieldRow, db'.fields = db.fields ++ newF
        ∧ ∀ fr ∈ newF, ∃ blk ∈ blks, ∃ rd ∈ blk.registers, ∃ fd ∈ rd.fields,
            fr.lsb = fd.lsb ∧ fr.msb = fd.msb := by
  induction blks with
  | nil =>
    intro db variant db' h
    cases h
    exact ⟨[], (List.append_nil _).symm, by intro fr hfr; cases hfr⟩
  | cons blk blks ih =>
    intro db variant db' h
    rw [upsertBlockTrees] at h
    cases hstep : upsertBlockTree db variant blk with
    | none => rw [hstep] at h; cases h
    | some db1 =>
      rw [hstep] at h
      obtain ⟨newF1, hf1, hmem1⟩ := upsertBlockTree_fields db variant blk db1 hstep
      obtain ⟨newF2, hf2, hmem2⟩ := ih db1 variant db' h
      refine ⟨newF1 ++ newF2, ?_, ?_⟩
      · rw [hf2, hf1, List.append_assoc]
      · intro fr hfr
        rcases List.mem_append.mp hfr with hm | hm
        · obtain ⟨rd, hrd, fd, hfd, hl, hm2⟩ := hmem1 fr hm
          exact ⟨blk, List.mem_cons_self blk blks, rd, hrd, fd, hfd, hl, hm2⟩
        · obtain ⟨b2, hb2, rd, hrd, fd, hfd, hl, hm2⟩ := hmem2 fr hm
          exact ⟨b2, List.mem_cons_of_mem blk hb2, rd, hrd, fd, hfd, hl, hm2⟩

/-- The constraint replacement at the end of upsert_spec_bundle leaves the
block, reg and field tables untouched. -/
theorem upsert_spec_bundle_split (db : DB) (bundle : SpecBundle) (db' : DB)
    (h : upsert_spec_bundle db bundle = some db') :
    ∃ dbB, upsertBlockTrees db bundle.variant_name bundle.doc.ip_blocks = some dbB
      ∧ db'.blocks = dbB.blocks ∧ db'.regs = dbB.regs ∧ db'.fields = dbB.fields
      ∧ db'.nextBlockId = dbB.nextBlockId := by
  unfold upsert_spec_bundle at h
  cases hres : upsertBlockTrees db bundle.variant_name bundle.doc.ip_blocks with
  | none => rw [hres] at h; cases h
  | some dbB =>
    rw [hres] at h
    cases h
    exact ⟨dbB, rfl, rfl, rfl, rfl, rfl⟩

/-! ### Claim theorems for model construction and ingest -/

/-- C9: pydantic FieldDef construction succeeds exactly when msb >= lsb (a
field with msb < lsb is rejected with a ValueError at model-construction
time); and any store whose fields satisfy the invariant still satisfies it
after ingesting a bundle of validly constructed fields, so a malformed field
never reaches the stored model the validation engine reads. -/
theorem c9_msb_ge_lsb :
    (∀ (name : String) (lsb msb : Int) (access : String) (reset : Int)
        (en : Option (List EnumValue)),
      (∃ f, mkFieldDef name lsb msb access reset en = Except.ok f) ↔ lsb ≤ msb)
    ∧ ∀ (db : DB) (bundle : SpecBundle) (db' : DB),
        (∀ f ∈ db.fields, f.lsb ≤ f.msb) →
        (∀ blk ∈ bundle.doc.ip_blocks, ∀ rd ∈ blk.registers, ∀ fd ∈ rd.fields,
            fd.lsb ≤ fd.msb) →
        upsert_spec_bundle db bundle = some db' →
        ∀ f ∈ db'.fields, f.lsb ≤ f.msb := by
  constructor
  · intro name lsb msb access reset en
    constructor
    · rintro ⟨f, hf⟩
      unfold mkFieldDef at hf
      split at hf
      · cases hf
      · omega
    · intro h
      refine ⟨FieldDef.mk name lsb msb access reset en, ?_⟩
      unfold mkFieldDef
      rw [if_neg (by omega)]
  · intro db bundle db' hdb hbundle h
    obtain ⟨dbB, hres, _, _, hfields, _⟩ := upsert_spec_bundle_split db bundle db' h
    obtain ⟨newF, hnf, hmem⟩ := upsertBlockTrees_fields _ _ _ _ hres
    intro f hf
    rw [hfields, hnf] at hf
    rcases List.mem_append.mp hf with hm | hm
    · exact hdb f hm
    · obtain ⟨blk, hblk, rd, hrd, fd, hfd, hl, hm2⟩ := hmem f hm
      rw [hl, hm2]
      exact hbundle blk hblk rd hrd fd hfd

def c9bundle : SpecBundle :=
  { spec_version := "1", variant_name := none,
    doc := { spec_version := "1",
             ip_blocks := [{ name := "B", base_addr := 0,
                             registers := [{ name := "R", offset := 0, width := 32,
                                             fields := [{ name := "F", lsb := 0,
                                                          msb := 3, access := "RW",
                                                          reset := 0,
                                                          enum := none }] }] }],
             constraints := [] } }

def c9db1 : DB := (upsert_spec_bundle DB.empty c9bundle).getD DB.empty

theorem c9_msb_ge_lsb_witness :
    (∀ f ∈ DB.empty.fields, f.lsb ≤ f.msb)
    ∧ (∀ blk ∈ c9bundle.doc.ip_blocks, ∀ rd ∈ blk.registers, ∀ fd ∈ rd.fields,
        fd.lsb ≤ fd.msb)
    ∧ upsert_spec_bundle DB.empty c9bundle = some c9db1
    ∧ (∀ f ∈ c9db1.fields, f.lsb ≤ f.msb)
    ∧ ((∃ f, mkFieldDef "F" 5 2 "RW" 0 none = Except.ok f) ↔ (5 : Int) ≤ 2)
    ∧ ¬ (∃ f, mkFieldDef "F" 5 2 "RW" 0 none = Except.ok f) :=
  ⟨by decide, by decide, rfl,
   c9_msb_ge_lsb.2 DB.empty c9bundle c9db1 (by decide) (by decide) rfl,
   c9_msb_ge_lsb.1 "F" 5 2 "RW" 0 none,
   fun h => absurd ((c9_msb_ge_lsb.1 "F" 5 2 "RW" 0 none).mp h) (by decide)⟩

/-! ### Idempotence of ingest at the query level -/

theorem blocksWithKey_congr (db' d : DB) (h : db'.blocks = d.blocks)
    (k : String × String) : blocksWithKey db' k = blocksWithKey d k := by
  unfold blocksWithKey
  rw [h]

theorem listRegsOfBlock_congr (db' d : DB) (h : db'.regs = d.regs) (bid : Nat) :
    listRegsOfBlock db' bid = listRegsOfBlock d bid := by
  unfold listRegsOfBlock regsOfBlockQ
  rw [h]

theorem regRowsOfBlock_congr (db' d : DB) (h : db'.regs = d.regs) (bid : Nat) :
    regRowsOfBlock db' bid = regRowsOfBlock d bid := by
  unfold regRowsOfBlock
  rw [h]

theorem DBWF_congr (db' d : DB) (hb : db'.blocks = d.blocks)
    (hn : db'.nextBlockId = d.nextBlockId) (h : DBWF d) : DBWF db' := by
  obtain ⟨h1, h2, h3⟩ := h
  refine ⟨?_, ?_, ?_⟩
  · rw [hb]
    exact h1
  · intro b hbm
    rw [hb] at hbm
    rw [hn]
    exact h2 b hbm
  · rw [hb]
    exact h3

theorem listRegsOfBlock_of_proj (db : DB) (bid : Nat) (rs : List RegisterDef)
    (h : (regRowsOfBlock db bid).map regProj = rs.map regDefProj) :
    listRegsOfBlock db bid = sortedRegSet rs := by
  unfold listRegsOfBlock regsOfBlockQ sortedRegSet
  rw [List.map_insertionSort regOffsetLe tripOffLe regProj _
    (fun a _ b _ => Iff.rfl)]
  show List.insertionSort tripOffLe ((regRowsOfBlock db bid).map regProj) = _
  rw [h]

def bundleKeysNodup (bundle : SpecBundle) : Prop :=
  (bundle.doc.ip_blocks.map (fun b => dkey b bundle.variant_name)).Nodup

instance (db : DB) : Decidable (DBWF db) :=
  inferInstanceAs (Decidable ((db.blocks.map (fun b : BlockRow => b.id)).Nodup
    ∧ (∀ b ∈ db.blocks, b.id < db.nextBlockId)
    ∧ (db.blocks.map bkey).Nodup))

instance (bundle : SpecBundle) : Decidable (bundleKeysNodup bundle) :=
  inferInstanceAs (Decidable
    ((bundle.doc.ip_blocks.map (fun b => dkey b bundle.variant_name)).Nodup))

/-- C8: ingesting the same bundle twice is idempotent at the query level:
after either ingest there is exactly one block row per ingested
(name, variant) key, its base_addr is the bundle's (latest) value, and the
register listing of that block is exactly the bundle's register set (sorted
by offset) — the same, non-duplicated set after the first and the second
ingest. -/
theorem c8_idempotent (db : DB) (bundle : SpecBundle) (db1 db2 : DB)
    (hwf : DBWF db) (hkeys : bundleKeysNodup bundle)
    (h1 : upsert_spec_bundle db bundle = some db1)
    (h2 : upsert_spec_bundle db1 bundle = some db2) :
    ∀ blk ∈ bundle.doc.ip_blocks,
      (∃ row1, blocksWithKey db1 (dkey blk bundle.variant_name) = [row1]
        ∧ row1.name = blk.name ∧ row1.base_addr = blk.base_addr
        ∧ listRegsOfBlock db1 row1.id = sortedRegSet blk.registers)
      ∧ (∃ row2, blocksWithKey db2 (dkey blk bundle.variant_name) = [row2]
        ∧ row2.name = blk.name ∧ row2.base_addr = blk.base_addr
        ∧ listRegsOfBlock db2 row2.id = sortedRegSet blk.registers) := by
  obtain ⟨dbB1, hres1, hblocks1, hregs1, _, hnb1⟩ :=
    upsert_spec_bundle_split db bundle db1 h1
  obtain ⟨hwfB1, hpost1⟩ :=
    upsertBlockTrees_post bundle.doc.ip_blocks db bundle.variant_name dbB1 hwf hkeys hres1
  have hwf1 : DBWF db1 := DBWF_congr db1 dbB1 hblocks1 hnb1 hwfB1
  obtain ⟨dbB2, hres2, hblocks2, hregs2, _, hnb2⟩ :=
    upsert_spec_bundle_split db1 bundle db2 h2
  obtain ⟨hwfB2, hpost2⟩ :=
    upsertBlockTrees_post bundle.doc.ip_blocks db1 bundle.variant_name dbB2 hwf1 hkeys hres2
  intro blk hblk
  constructor
  · obtain ⟨bid, var, _, hkey, hproj⟩ := hpost1 blk hblk
    refine ⟨BlockRow.mk bid blk.name blk.base_addr var, ?_, rfl, rfl, ?_⟩
    · rw [blocksWithKey_congr db1 dbB1 hblocks1]
      exact hkey
    · show listRegsOfBlock db1 bid = _
      rw [listRegsOfBlock_congr db1 dbB1 hregs1]
      apply listRegsOfBlock_of_proj
      exact hproj
  · obtain ⟨bid, var, _, hkey, hproj⟩ := hpost2 blk hblk
    refine ⟨BlockRow.mk bid blk.name blk.base_addr var, ?_, rfl, rfl, ?_⟩
    · rw [blocksWithKey_congr db2 dbB2 hblocks2]
      exact hkey
    · show listRegsOfBlock db2 bid = _
      rw [listRegsOfBlock_congr db2 dbB2 hregs2]
      apply listRegsOfBlock_of_proj
      exact hproj

def c8bundle : SpecBundle :=
  { spec_version := "1", variant_name := none,
    doc := { spec_version := "1",
             ip_blocks := [{ name := "A", base_addr := 4096,
                             registers := [{ name := "CTRL", offset := 8, width := 32,
                                             fields := [] },
                                           { name := "STAT", offset := 0, width := 32,
                                             fields := [] }] },
                           { name := "B", base_addr := 8192,
                             registers := [{ name := "CFG", offset := 4, width := 32,
                                             fields := [] }] }],
             constraints := [] } }

def c8db1 : DB := (upsert_spec_bundle DB.empty c8bundle).getD DB.empty

def c8db2 : DB := (upsert_spec_bundle c8db1 c8bundle).getD c8db1

theorem c8_idempotent_witness :
    DBWF DB.empty
    ∧ bundleKeysNodup c8bundle
    ∧ upsert_spec_bundle DB.empty c8bundle = some c8db1
    ∧ upsert_spec_bundle c8db1 c8bundle = some c8db2
    ∧ (∀ blk ∈ c8bundle.doc.ip_blocks,
        (∃ row1, blocksWithKey c8db1 (dkey blk c8bundle.variant_name) = [row1]
          ∧ row1.name = blk.name ∧ row1.base_addr = blk.base_addr
          ∧ listRegsOfBlock c8db1 row1.id = sortedRegSet blk.registers)
        ∧ (∃ row2, blocksWithKey c8db2 (dkey blk c8bundle.variant_name) = [row2]
          ∧ row2.name = blk.name ∧ row2.base_addr = blk.base_addr
          ∧ listRegsOfBlock c8db2 row2.id = sortedRegSet blk.registers))
    ∧ c8db2.blocks.map (fun b => b.id) = [1, 2]
    ∧ listRegsOfBlock c8db2 1 = [("STAT", 0, 32), ("CTRL", 8, 32)] :=
  ⟨by decide, by decide, rfl, rfl,
   c8_idempotent DB.empty c8bundle c8db1 c8db2 (by decide) (by decide) rfl rfl,
   by decide, by decide⟩

/-! ### The non-cascading delete of upsert (foreign keys off) -/

def c3bundle : SpecBundle :=
  { spec_version := "1", variant_name := none,
    doc := { spec_version := "1",
             ip_blocks := [{ name := "B", base_addr := 0,
                             registers := [{ name := "R", offset := 0, width := 32,
                                             fields := [{ name := "F", lsb := 0,
                                                          msb := 3, access := "RW",
                                                          reset := 0,
                                                          enum := some [{ name := "ON",
                                                                          value := 1 }] }] }] }],
             constraints := [] } }

def c3db1 : DB := (upsert_spec_bundle DB.empty c3bundle).getD DB.empty

def c3db2 : DB := (upsert_spec_bundle c3db1 c3bundle).getD c3db1

/-- C3: re-ingesting block "B" deletes its register rows but NOT the field
and enum_value rows of the old registers: foreign-key enforcement is
connection-scoped in SQLite, `connect_db` never issues
`PRAGMA foreign_keys = ON`, so the schema's ON DELETE CASCADE never runs on
the ingest connection.  After the second ingest the reg table holds only the
new register (id 2), while the old field row (reg_id 1, now dangling) and
its enum row are still present in the store. -/
theorem c3_orphan_rows :
    upsert_spec_bundle DB.empty c3bundle = some c3db1
    ∧ upsert_spec_bundle c3db1 c3bundle = some c3db2
    ∧ c3db1.regs.map (fun r => r.id) = [1]
    ∧ c3db2.regs.map (fun r => r.id) = [2]
    ∧ c3db2.fields.map (fun f => f.reg_id) = [1, 2]
    ∧ c3db2.enums.map (fun e => e.field_id) = [1, 2]
    ∧ (∃ f ∈ c3db2.fields, f.reg_id = 1 ∧ ∀ r ∈ c3db2.regs, r.id ≠ f.reg_id)
    ∧ (∃ e ∈ c3db2.enums, e.field_id = 1) :=
  ⟨rfl, rfl, by decide, by decide, by decide, by decide, by decide, by decide⟩
